import Mathlib

/-!
Verification of the topology-transformation layer (GraphTools) of the
networkit graph library against its specification.  The mutable graph
storage engine is an external collaborator of this layer; it is modelled
from the specification's data model.  The GraphTools operations themselves
are translated from src/networkit/cpp/graph/GraphTools.cpp.
-/

namespace NetworKit

/-- Modelled from the spec: one adjacency record of the external Graph
storage engine, a tuple of endpoints, weight and optional edge id.  The
operations in scope only copy weights, never compute with them, so weights
are modelled as integers (unit default weight is the integer 1). -/
structure Edge where
  src : Nat
  dst : Nat
  w : Int
  id : Nat
deriving DecidableEq

/-- The reversal of a directed edge record: endpoints swapped, weight and
edge id kept.  Used to state transpose properties. -/
def Edge.rev (e : Edge) : Edge :=
  { src := e.dst, dst := e.src, w := e.w, id := e.id }

/-- Modelled from the spec: the external mutable Graph storage engine.
Node existence is a predicate over the id range below the upper node id
bound (holes are explicit), directedness and weightedness are immutable
flags, adjacency is a pool of edge records (for an undirected graph each
edge is stored once, in the orientation it was added), and the aggregate
counters (edge count, self-loop count, edge-id bound) are explicit fields
because some operations finalize them in bulk instead of per edge. -/
structure Graph where
  bound : Nat
  alive : Nat → Bool
  directed : Bool
  weighted : Bool
  edges : List Edge
  indexed : Bool
  edgeCount : Nat
  loopCount : Nat
  idBound : Nat

/-- Modelled from the spec: the Graph constructor with a node count and the
two flags; all ids below the bound exist, there are no edges yet. -/
def Graph.new (n : Nat) (weighted directed : Bool) : Graph :=
  { bound := n, alive := fun u => decide (u < n), directed := directed,
    weighted := weighted, edges := [], indexed := false,
    edgeCount := 0, loopCount := 0, idBound := 0 }

/-- Modelled from the spec: node-existence query (false outside the id
range and at holes). -/
def Graph.hasNode (G : Graph) (u : Nat) : Bool :=
  decide (u < G.bound) && G.alive u

/-- Modelled from the spec: remove a node, marking its id as a hole.  In
this layer nodes are only ever removed while they have no incident edges,
so the edge pool is untouched. -/
def Graph.removeNode (G : Graph) (u : Nat) : Graph :=
  { G with alive := fun v => if v = u then false else G.alive v }

/-- Modelled from the spec: restore a previously removed node id. -/
def Graph.restoreNode (G : Graph) (u : Nat) : Graph :=
  { G with alive := fun v => if v = u then true else G.alive v }

/-- Modelled from the spec: add a fresh node at the current upper bound and
grow the bound by one. -/
def Graph.addNode (G : Graph) : Graph :=
  { G with bound := G.bound + 1,
           alive := fun v => if v = G.bound then true else G.alive v }

/-- Modelled from the spec: add an edge record with the given weight,
updating the aggregate counters (a self-loop counts once) and assigning the
next edge id when the graph is indexed. -/
def Graph.addEdge (G : Graph) (u v : Nat) (w : Int) : Graph :=
  { G with
    edges := G.edges ++ [{ src := u, dst := v, w := w,
                           id := if G.indexed then G.idBound else 0 }],
    edgeCount := G.edgeCount + 1,
    loopCount := if u = v then G.loopCount + 1 else G.loopCount,
    idBound := if G.indexed then G.idBound + 1 else G.idBound }

/-- Modelled from the spec: edge-existence query between two endpoints; an
undirected record matches in either orientation. -/
def Graph.hasEdge (G : Graph) (u v : Nat) : Bool :=
  if G.directed then G.edges.any (fun e => e.src == u && e.dst == v)
  else G.edges.any (fun e =>
    (e.src == u && e.dst == v) || (e.src == v && e.dst == u))

/-- Modelled from the spec: the records forming the out-adjacency of a
node in a directed graph. -/
def Graph.outEdges (G : Graph) (u : Nat) : List Edge :=
  G.edges.filter (fun e => e.src == u)

/-- Modelled from the spec: the records forming the in-adjacency of a node
in a directed graph. -/
def Graph.inEdges (G : Graph) (u : Nat) : List Edge :=
  G.edges.filter (fun e => e.dst == u)

/-- Modelled from the spec: the records incident to a node of an
undirected graph (a self-loop record is incident once). -/
def Graph.incEdges (G : Graph) (u : Nat) : List Edge :=
  G.edges.filter (fun e => e.src == u || e.dst == u)

/-- Modelled from the spec: out-degree of a node (plain degree for an
undirected graph, a self-loop counting once). -/
def Graph.degreeOut (G : Graph) (u : Nat) : Nat :=
  if G.directed then (G.outEdges u).length else (G.incEdges u).length

/-- Modelled from the spec: in-degree of a node (plain degree for an
undirected graph). -/
def Graph.degreeIn (G : Graph) (u : Nat) : Nat :=
  if G.directed then (G.inEdges u).length else (G.incEdges u).length

/-- Modelled from the spec: the out-neighbors of a node in iteration
order (all neighbors for an undirected graph). -/
def Graph.outNeighbors (G : Graph) (u : Nat) : List Nat :=
  if G.directed then (G.outEdges u).map Edge.dst
  else G.edges.filterMap (fun e =>
    if e.src == u then some e.dst
    else if e.dst == u then some e.src else none)

/-- Modelled from the spec: the in-neighbors of a node (all neighbors for
an undirected graph). -/
def Graph.inNeighbors (G : Graph) (u : Nat) : List Nat :=
  if G.directed then (G.inEdges u).map Edge.src
  else G.edges.filterMap (fun e =>
    if e.src == u then some e.dst
    else if e.dst == u then some e.src else none)

/-- Modelled from the spec: the existing node ids in ascending order, the
order in which the storage engine iterates nodes. -/
def Graph.nodesList (G : Graph) : List Nat :=
  (List.range G.bound).filter G.hasNode

/-- Modelled from the spec: the number of existing nodes. -/
def Graph.numberOfNodes (G : Graph) : Nat := G.nodesList.length

/-- The dense id that compaction assigns to an existing original id: the
number of existing nodes with a smaller id.  Used to state compaction
properties. -/
def Graph.denseId (G : Graph) (u : Nat) : Nat :=
  ((List.range u).filter G.hasNode).length

/-- Modelled from the spec: the number of edge records joining the two
given endpoints (either orientation for an undirected graph).  Used to
state that merge creates no duplicate edges. -/
def Graph.edgeMultiplicity (G : Graph) (u v : Nat) : Nat :=
  if G.directed then (G.edges.filter (fun e => e.src == u && e.dst == v)).length
  else (G.edges.filter (fun e =>
    (e.src == u && e.dst == v) || (e.src == v && e.dst == u))).length

/-- Modelled from the spec: structural consistency of a graph value; every
edge record joins two existing nodes. -/
def Graph.wf (G : Graph) : Bool :=
  G.edges.all (fun e => G.hasNode e.src && G.hasNode e.dst)

namespace GraphTools

/-- Translated from computeMaxDegree in GraphTools.cpp: an associative max
reduction of the in- or out-degree over the whole id range (a hole
contributes degree 0). -/
def computeMaxDegree (G : Graph) (inDegree : Bool) : Nat :=
  (List.range G.bound).foldl
    (fun result u => max result (if inDegree then G.degreeIn u else G.degreeOut u)) 0

/-- Translated from maxDegree in GraphTools.cpp. -/
def maxDegree (G : Graph) : Nat := computeMaxDegree G false

/-- Translated from maxInDegree in GraphTools.cpp. -/
def maxInDegree (G : Graph) : Nat := computeMaxDegree G true

/-- Translated from the neighbors closure of subgraphFromNodes in
GraphTools.cpp: empty when neither flag is set, otherwise the collected
out- and/or in-neighbors of the node set. -/
def subgraphNeighbors (G : Graph) (nodes : List Nat)
    (includeOutNeighbors includeInNeighbors : Bool) : List Nat :=
  if !includeOutNeighbors && !includeInNeighbors then []
  else nodes.flatMap (fun u =>
    (if includeOutNeighbors then G.outNeighbors u else []) ++
    (if includeInNeighbors then G.inNeighbors u else []))

/-- Translated from the isRelevantNode closure of subgraphFromNodes in
GraphTools.cpp: 2 for a member of the node set, 1 for a collected
neighbor, 0 otherwise. -/
def isRelevantNode (nodes nbrs : List Nat) (u : Nat) : Nat :=
  if nodes.contains u then 2
  else if !nbrs.isEmpty && nbrs.contains u then 1
  else 0

/-- Translated from subgraphFromNodes in GraphTools.cpp: start from a full
graph over the same id range and flags, remove every node of relevance 0,
then add every input edge whose relevance scores sum above 2. -/
def subgraphFromNodes (G : Graph) (nodes : List Nat)
    (includeOutNeighbors includeInNeighbors : Bool) : Graph :=
  let nbrs := subgraphNeighbors G nodes includeOutNeighbors includeInNeighbors
  let S1 := (List.range G.bound).foldl
    (fun H u => if isRelevantNode nodes nbrs u == 0 then H.removeNode u else H)
    (Graph.new G.bound G.weighted G.directed)
  G.edges.foldl
    (fun H e =>
      if isRelevantNode nodes nbrs e.src + isRelevantNode nodes nbrs e.dst > 2
      then H.addEdge e.src e.dst e.w else H) S1

/-- The message of the error thrown by transpose on undirected input in
GraphTools.cpp. -/
def transposeErrorMessage : String :=
  "The transpose of an undirected graph is identical to the original graph."

/-- Translated from transpose in GraphTools.cpp: reject undirected input
with a recoverable error; otherwise build a directed graph over the same
id range (pre-enabling edge indexing when the source is indexed), give
every existing node the reversal of its in-adjacency as out-adjacency
(the symmetric in-adjacency insertions are mirrors of the same records in
this model), remove the holes, and finalize the aggregate counters in one
shot from the source. -/
def transpose (G : Graph) : Except String Graph :=
  if !G.directed then .error transposeErrorMessage
  else
    let T1 :=
      if G.indexed then { Graph.new G.bound G.weighted true with indexed := true }
      else Graph.new G.bound G.weighted true
    let T2 := (List.range G.bound).foldl
      (fun H u =>
        if G.hasNode u then
          { H with edges := H.edges ++ (G.inEdges u).map (fun e => { src := u, dst := e.src, w := e.w, id := e.id }) }
        else H.removeNode u) T1
    .ok { T2 with edgeCount := G.edgeCount, loopCount := G.loopCount,
                  idBound := G.idBound }

/-- Both transpositions of a directed graph, chained. -/
def transposeTwice (G : Graph) : Except String Graph :=
  (transpose G).bind transpose

/-- Translated from the first phase of merge in GraphTools.cpp: when the
source bound is larger, add fresh nodes up to it and then re-remove the
ones the source does not have, growing the target id space in lockstep
with the source hole pattern. -/
def mergeGrow (G G1 : Graph) : Graph :=
  if G1.bound > G.bound then
    (List.range' G.bound (G1.bound - G.bound)).foldl
      (fun H i => if !G1.hasNode i then H.removeNode i else H)
      ((List.range (G1.bound - G.bound)).foldl (fun H _ => H.addNode) G)
  else G

/-- Translated from the second phase of merge in GraphTools.cpp: restore
every target hole that exists in the source. -/
def mergeRestore (G1 Ga : Graph) : Graph :=
  (List.range Ga.bound).foldl
    (fun H i => if !H.hasNode i && G1.hasNode i then H.restoreNode i else H) Ga

/-- Translated from the third phase of merge in GraphTools.cpp: add every
source edge the target does not already have between the same endpoints. -/
def mergeEdges (G1 Gb : Graph) : Graph :=
  G1.edges.foldl
    (fun H e => if !H.hasEdge e.src e.dst then H.addEdge e.src e.dst e.w else H) Gb

/-- Translated from merge in GraphTools.cpp: the three phases in order. -/
def merge (G G1 : Graph) : Graph := mergeEdges G1 (mergeRestore G1 (mergeGrow G G1))

/-- Translated from getContinuousNodeIds in GraphTools.cpp: map each
existing node, in ascending id order, to the next dense id starting from
0. -/
def getContinuousNodeIds (G : Graph) : List (Nat × Nat) :=
  G.nodesList.enum.map (fun p => (p.2, p.1))

/-- Modelled from the spec: the external generic id-remapping routine that
getCompactedGraph delegates to; it rebuilds the graph over the target id
space, re-adding every edge under mapped endpoint ids with its weight. -/
def getRemappedGraph (G : Graph) (n : Nat) (f : Nat → Nat) : Graph :=
  G.edges.foldl (fun H e => H.addEdge (f e.src) (f e.dst) e.w)
    (Graph.new n G.weighted G.directed)

/-- Translated from getCompactedGraph in GraphTools.cpp: remap the graph
through the supplied node id map (every original id must be a key). -/
def getCompactedGraph (G : Graph) (nodeIdMap : List (Nat × Nat)) : Graph :=
  getRemappedGraph G nodeIdMap.length (fun u => (nodeIdMap.lookup u).getD 0)

/-- Translated from invertContinuousNodeIds in GraphTools.cpp: an array of
numberOfNodes + 1 entries, the last holding the upper node id bound as a
sentinel, each other entry at a dense id receiving that id's original
key. -/
def invertContinuousNodeIds (nodeIdMap : List (Nat × Nat)) (G : Graph) : List Nat :=
  nodeIdMap.foldl (fun a x => a.set x.2 x.1)
    ((List.replicate (G.numberOfNodes + 1) 0).set G.numberOfNodes G.bound)

/-- One iteration of the node loop of restoreGraph in GraphTools.cpp: when
the preimage of the next dense id is the current original id, re-add its
compacted edges under restored endpoint ids (addEdge without a weight, so
the unit default weight) and advance the dense cursor, otherwise remove
the original id as a hole. -/
def restoreStep (G : Graph) (iv : List Nat) : Graph × Nat → Nat → Graph × Nat :=
  fun s u =>
    if iv.getD s.2 0 == u then
      ((G.outNeighbors s.2).foldl (fun H v => H.addEdge u (iv.getD v 0) 1) s.1,
       s.2 + 1)
    else (s.1.removeNode u, s.2)

/-- Translated from restoreGraph in GraphTools.cpp: rebuild a graph over
the original id space (the sentinel entry of the inverted map), walking
the original ids in order against the dense cursor. -/
def restoreGraph (iv : List Nat) (G : Graph) : Graph :=
  ((List.range (iv.getLastD 0)).foldl (restoreStep G iv)
    (Graph.new (iv.getLastD 0) G.weighted G.directed, 0)).1

/-- A concrete directed, edge-indexed graph used by witnesses: nodes 0, 1
and 3 with a hole at 2, upper bound 4, edges 0→1 and 1→3 with ids 0 and
1. -/
def exD : Graph :=
  ((({ Graph.new 4 false true with indexed := true }).removeNode 2).addEdge 0 1 1).addEdge 1 3 2

/-- A concrete undirected graph used by witnesses: three nodes, an edge
and a self-loop. -/
def exU : Graph := ((Graph.new 3 false false).addEdge 0 1 1).addEdge 2 2 5

/-- The first graph of the specification's merge scenario: node 0 only. -/
def exA : Graph := Graph.new 1 false false

/-- The second graph of the specification's merge scenario: nodes 0 and 1
and the single edge between them. -/
def exB : Graph := (Graph.new 2 false false).addEdge 0 1 1

/-- The state of the restoreGraph node loop after processing the first u
original ids: the graph under construction and the dense cursor. -/
def restoreState (C0 : Graph) (iv : List Nat) (b u : Nat) : Graph × Nat :=
  (List.range u).foldl (restoreStep C0 iv) (Graph.new b C0.weighted C0.directed, 0)

/-- The full compact-process-restore round trip of the Id Compactor:
compact with the dense id map, invert it, and restore. -/
def roundTrip (G : Graph) : Graph :=
  restoreGraph (invertContinuousNodeIds (getContinuousNodeIds G) G)
    (getCompactedGraph G (getContinuousNodeIds G))

end GraphTools

end NetworKit

namespace NetworKit

theorem foldl_fix {α β : Type _} (f : α → β → α) (x : α) :
    ∀ l : List β, (∀ b ∈ l, f x b = x) → l.foldl f x = x := by
  intro l
  induction l with
  | nil => intro _; rfl
  | cons b t ih =>
    intro h
    have hb : f x b = x := h b (by simp)
    simp only [List.foldl_cons, hb]
    exact ih fun c hc => h c (by simp [hc])

theorem foldl_preserves {α β γ : Type _} (f : α → β → α) (g : α → γ)
    (h : ∀ x b, g (f x b) = g x) : ∀ (l : List β) (x : α), g (l.foldl f x) = g x := by
  intro l
  induction l with
  | nil => intro x; rfl
  | cons b t ih => intro x; simp only [List.foldl_cons, ih, h]

theorem foldl_pred_mono {α β : Type _} (f : α → β → α) (p : α → Prop)
    (h : ∀ x b, p x → p (f x b)) : ∀ (l : List β) (x : α), p x → p (l.foldl f x) := by
  intro l
  induction l with
  | nil => intro x hx; exact hx
  | cons b t ih => intro x hx; exact ih (f x b) (h x b hx)

@[simp] theorem addEdge_bound (G : Graph) (u v : Nat) (w : Int) :
    (G.addEdge u v w).bound = G.bound := rfl

@[simp] theorem addEdge_alive (G : Graph) (u v : Nat) (w : Int) :
    (G.addEdge u v w).alive = G.alive := rfl

@[simp] theorem addEdge_directed (G : Graph) (u v : Nat) (w : Int) :
    (G.addEdge u v w).directed = G.directed := rfl

@[simp] theorem addEdge_weighted (G : Graph) (u v : Nat) (w : Int) :
    (G.addEdge u v w).weighted = G.weighted := rfl

@[simp] theorem addEdge_indexed (G : Graph) (u v : Nat) (w : Int) :
    (G.addEdge u v w).indexed = G.indexed := rfl

@[simp] theorem addEdge_edges (G : Graph) (u v : Nat) (w : Int) :
    (G.addEdge u v w).edges
      = G.edges ++ [{ src := u, dst := v, w := w,
                      id := if G.indexed then G.idBound else 0 }] := rfl

@[simp] theorem addEdge_hasNode (G : Graph) (u v : Nat) (w : Int) (x : Nat) :
    (G.addEdge u v w).hasNode x = G.hasNode x := rfl

@[simp] theorem removeNode_bound (G : Graph) (u : Nat) :
    (G.removeNode u).bound = G.bound := rfl

@[simp] theorem removeNode_edges (G : Graph) (u : Nat) :
    (G.removeNode u).edges = G.edges := rfl

@[simp] theorem removeNode_directed (G : Graph) (u : Nat) :
    (G.removeNode u).directed = G.directed := rfl

@[simp] theorem removeNode_weighted (G : Graph) (u : Nat) :
    (G.removeNode u).weighted = G.weighted := rfl

@[simp] theorem removeNode_indexed (G : Graph) (u : Nat) :
    (G.removeNode u).indexed = G.indexed := rfl

theorem removeNode_alive (G : Graph) (u v : Nat) :
    (G.removeNode u).alive v = if v = u then false else G.alive v := rfl

@[simp] theorem restoreNode_bound (G : Graph) (u : Nat) :
    (G.restoreNode u).bound = G.bound := rfl

@[simp] theorem restoreNode_edges (G : Graph) (u : Nat) :
    (G.restoreNode u).edges = G.edges := rfl

@[simp] theorem restoreNode_directed (G : Graph) (u : Nat) :
    (G.restoreNode u).directed = G.directed := rfl

theorem restoreNode_alive (G : Graph) (u v : Nat) :
    (G.restoreNode u).alive v = if v = u then true else G.alive v := rfl

@[simp] theorem new_bound (n : Nat) (w d : Bool) : (Graph.new n w d).bound = n := rfl

@[simp] theorem new_alive (n : Nat) (w d : Bool) (u : Nat) :
    (Graph.new n w d).alive u = decide (u < n) := rfl

@[simp] theorem new_directed (n : Nat) (w d : Bool) : (Graph.new n w d).directed = d := rfl

@[simp] theorem new_weighted (n : Nat) (w d : Bool) : (Graph.new n w d).weighted = w := rfl

@[simp] theorem new_edges (n : Nat) (w d : Bool) : (Graph.new n w d).edges = [] := rfl

@[simp] theorem new_indexed (n : Nat) (w d : Bool) : (Graph.new n w d).indexed = false := rfl

theorem hasNode_eq (G : Graph) (u : Nat) :
    G.hasNode u = (decide (u < G.bound) && G.alive u) := rfl

theorem hasNode_lt {G : Graph} {u : Nat} (h : G.hasNode u = true) : u < G.bound := by
  have := congrArg (fun b => b) h
  simp [Graph.hasNode, Bool.and_eq_true] at h
  exact h.1

namespace GraphTools

theorem wf_endpoints {G : Graph} (hw : G.wf = true) :
    ∀ e ∈ G.edges, G.hasNode e.src = true ∧ G.hasNode e.dst = true := by
  unfold Graph.wf at hw
  intro e he
  have h := List.all_eq_true.mp hw e he
  simpa using h

theorem degree_zero_of_hole {G : Graph} (hw : G.wf = true) {u : Nat}
    (h : G.hasNode u = false) : G.degreeOut u = 0 ∧ G.degreeIn u = 0 := by
  have hend := wf_endpoints hw
  have hsrc : G.edges.filter (fun e => e.src == u) = [] := by
    rw [List.filter_eq_nil_iff]
    intro e he
    simp only [beq_iff_eq]
    intro hsu
    have h1 := (hend e he).1
    rw [hsu, h] at h1
    exact absurd h1 (by simp)
  have hdst : G.edges.filter (fun e => e.dst == u) = [] := by
    rw [List.filter_eq_nil_iff]
    intro e he
    simp only [beq_iff_eq]
    intro hdu
    have h1 := (hend e he).2
    rw [hdu, h] at h1
    exact absurd h1 (by simp)
  have hinc : G.edges.filter (fun e => e.src == u || e.dst == u) = [] := by
    rw [List.filter_eq_nil_iff]
    intro e he
    simp only [Bool.or_eq_true, beq_iff_eq, not_or]
    constructor
    · intro hsu
      have h1 := (hend e he).1
      rw [hsu, h] at h1
      exact absurd h1 (by simp)
    · intro hdu
      have h1 := (hend e he).2
      rw [hdu, h] at h1
      exact absurd h1 (by simp)
  unfold Graph.degreeOut Graph.degreeIn Graph.outEdges Graph.inEdges Graph.incEdges
  cases G.directed <;> simp [hsrc, hdst, hinc]

theorem foldl_max_congr_filter (f : Nat → Nat) (p : Nat → Bool) :
    ∀ (l : List Nat), (∀ u ∈ l, p u = false → f u = 0) →
    ∀ a, l.foldl (fun r u => max r (f u)) a
      = (l.filter p).foldl (fun r u => max r (f u)) a := by
  intro l
  induction l with
  | nil => intro _ a; rfl
  | cons b t ih =>
    intro h a
    have ht : ∀ u ∈ t, p u = false → f u = 0 :=
      fun u hu hpu => h u (List.mem_cons_of_mem _ hu) hpu
    cases hb : p b with
    | true => simp only [List.foldl_cons, List.filter_cons, hb, if_true]; exact ih ht _
    | false =>
      have hfb : f b = 0 := h b (by simp) hb
      simp only [List.foldl_cons, List.filter_cons, hb, hfb, Bool.false_eq_true, if_false]
      rw [Nat.max_zero]
      exact ih ht a

theorem foldl_max_all_zero (f : Nat → Nat) :
    ∀ (l : List Nat), (∀ u ∈ l, f u = 0) →
    ∀ a, l.foldl (fun r u => max r (f u)) a = a := by
  intro l
  induction l with
  | nil => intro _ a; rfl
  | cons b t ih =>
    intro h a
    have hfb : f b = 0 := h b (by simp)
    simp only [List.foldl_cons, hfb, Nat.max_zero]
    exact ih (fun u hu => h u (List.mem_cons_of_mem _ hu)) a

/-- C7: maxDegree is the maximum out-degree over the existing nodes and
maxInDegree the maximum in-degree (holes never affect the reduction), and
both are 0 on an edgeless graph. -/
theorem computeMaxDegree_spec (G : Graph) (hw : G.wf = true) :
    maxDegree G = (G.nodesList.map G.degreeOut).foldl max 0 ∧
    maxInDegree G = (G.nodesList.map G.degreeIn).foldl max 0 ∧
    (G.edges = [] → maxDegree G = 0 ∧ maxInDegree G = 0) := by
  have hOut : ∀ u, G.hasNode u = false → G.degreeOut u = 0 :=
    fun u hu => (degree_zero_of_hole hw hu).1
  have hIn : ∀ u, G.hasNode u = false → G.degreeIn u = 0 :=
    fun u hu => (degree_zero_of_hole hw hu).2
  have hmaxOut : maxDegree G = (G.nodesList.map G.degreeOut).foldl max 0 := by
    unfold maxDegree computeMaxDegree
    simp only [Bool.false_eq_true, if_false]
    rw [List.foldl_map,
      foldl_max_congr_filter G.degreeOut G.hasNode (List.range G.bound)
        (fun u _ hu => hOut u hu) 0]
    rfl
  have hmaxIn : maxInDegree G = (G.nodesList.map G.degreeIn).foldl max 0 := by
    unfold maxInDegree computeMaxDegree
    simp only [if_true]
    rw [List.foldl_map,
      foldl_max_congr_filter G.degreeIn G.hasNode (List.range G.bound)
        (fun u _ hu => hIn u hu) 0]
    rfl
  refine ⟨hmaxOut, hmaxIn, ?_⟩
  intro he
  have hdegO : ∀ u, G.degreeOut u = 0 := by
    intro u
    unfold Graph.degreeOut Graph.outEdges Graph.incEdges
    cases G.directed <;> simp [he]
  have hdegI : ∀ u, G.degreeIn u = 0 := by
    intro u
    unfold Graph.degreeIn Graph.inEdges Graph.incEdges
    cases G.directed <;> simp [he]
  constructor
  · unfold maxDegree computeMaxDegree
    simp only [Bool.false_eq_true, if_false]
    exact foldl_max_all_zero G.degreeOut (List.range G.bound) (fun u _ => hdegO u) 0
  · unfold maxInDegree computeMaxDegree
    simp only [if_true]
    exact foldl_max_all_zero G.degreeIn (List.range G.bound) (fun u _ => hdegI u) 0

/-- Witness for C7 at a concrete directed graph with a hole. -/
theorem computeMaxDegree_spec_witness :
    maxDegree exD = (exD.nodesList.map exD.degreeOut).foldl max 0 ∧
    maxInDegree exD = (exD.nodesList.map exD.degreeIn).foldl max 0 ∧
    (exD.edges = [] → maxDegree exD = 0 ∧ maxInDegree exD = 0) :=
  computeMaxDegree_spec exD (by decide)

theorem foldl_addEdge_cond_edges (c : Edge → Prop) [DecidablePred c] :
    ∀ (l : List Edge) (H : Graph), H.indexed = false →
    (l.foldl (fun H e => if c e then H.addEdge e.src e.dst e.w else H) H).edges
      = H.edges ++ (l.filter (fun e => decide (c e))).map
          (fun e => { src := e.src, dst := e.dst, w := e.w, id := 0 }) := by
  intro l
  induction l with
  | nil => intro H _; simp
  | cons e t ih =>
    intro H hI
    by_cases hc : c e
    · simp only [List.foldl_cons, hc, if_true]
      rw [ih (H.addEdge e.src e.dst e.w) (by simp [hI])]
      simp [List.filter_cons, hc, hI, addEdge_edges]
    · simp only [List.foldl_cons, hc, if_false]
      rw [ih H hI]
      simp [List.filter_cons, hc]

theorem foldl_removeNode_alive (p : Nat → Bool) :
    ∀ (l : List Nat) (H : Graph) (v : Nat),
    (l.foldl (fun H u => if p u then H.removeNode u else H) H).alive v
      = (H.alive v && !(l.contains v && p v)) := by
  intro l
  induction l with
  | nil => intro H v; simp
  | cons b t ih =>
    intro H v
    cases hb : p b with
    | false =>
      simp only [List.foldl_cons, hb, Bool.false_eq_true, if_false]
      rw [ih H v]
      by_cases hv : v = b
      · subst hv; simp [hb, List.contains_cons]
      · simp [List.contains_cons, hv]
    | true =>
      simp only [List.foldl_cons, hb, if_true]
      rw [ih (H.removeNode b) v, removeNode_alive]
      by_cases hv : v = b
      · subst hv; simp [hb, List.contains_cons]
      · simp [List.contains_cons, hv]

theorem isRelevantNode_eq_two_iff (S nbrs : List Nat) (u : Nat) :
    isRelevantNode S nbrs u = 2 ↔ u ∈ S := by
  unfold isRelevantNode
  by_cases h : S.contains u
  · simp only [h, if_true]
    simp at h
    simp [h]
  · simp only [h, Bool.false_eq_true, if_false]
    simp at h
    simp [h]
    split <;> simp

theorem isRelevantNode_le_two (S nbrs : List Nat) (u : Nat) :
    isRelevantNode S nbrs u ≤ 2 := by
  unfold isRelevantNode
  split
  · exact Nat.le_refl 2
  · split <;> simp

theorem isRelevantNode_nil_of_not_mem {S : List Nat} {u : Nat}
    (h : u ∉ S) : isRelevantNode S [] u = 0 := by
  unfold isRelevantNode
  have hc : S.contains u = false := by
    cases hc : S.contains u
    · rfl
    · simp at hc; exact absurd hc h
  rw [hc]
  simp

theorem isRelevantNode_of_not_mem {S : List Nat} (nbrs : List Nat) {u : Nat}
    (h : u ∉ S) : isRelevantNode S nbrs u ≤ 1 := by
  unfold isRelevantNode
  have hc : S.contains u = false := by
    cases hc : S.contains u
    · rfl
    · simp at hc; exact absurd hc h
  simp only [hc, Bool.false_eq_true, if_false]
  split <;> simp

theorem subgraph_node_fold_edges (nodes nbrs : List Nat) :
    ∀ (l : List Nat) (H : Graph),
    ((l.foldl (fun H u => if isRelevantNode nodes nbrs u == 0 then H.removeNode u else H) H).edges
        = H.edges ∧
     (l.foldl (fun H u => if isRelevantNode nodes nbrs u == 0 then H.removeNode u else H) H).bound
        = H.bound ∧
     (l.foldl (fun H u => if isRelevantNode nodes nbrs u == 0 then H.removeNode u else H) H).directed
        = H.directed ∧
     (l.foldl (fun H u => if isRelevantNode nodes nbrs u == 0 then H.removeNode u else H) H).weighted
        = H.weighted ∧
     (l.foldl (fun H u => if isRelevantNode nodes nbrs u == 0 then H.removeNode u else H) H).indexed
        = H.indexed) := by
  intro l H
  refine ⟨?_, ?_, ?_, ?_, ?_⟩ <;>
    [exact foldl_preserves _ Graph.edges (by intro x b; split <;> rfl) l H;
     exact foldl_preserves _ Graph.bound (by intro x b; split <;> rfl) l H;
     exact foldl_preserves _ Graph.directed (by intro x b; split <;> rfl) l H;
     exact foldl_preserves _ Graph.weighted (by intro x b; split <;> rfl) l H;
     exact foldl_preserves _ Graph.indexed (by intro x b; split <;> rfl) l H]

theorem subgraph_edges_eq (G : Graph) (S : List Nat) (io ii : Bool) :
    (subgraphFromNodes G S io ii).edges
      = (G.edges.filter (fun e =>
          isRelevantNode S (subgraphNeighbors G S io ii) e.src +
          isRelevantNode S (subgraphNeighbors G S io ii) e.dst > 2)).map
          (fun e => { src := e.src, dst := e.dst, w := e.w, id := 0 }) := by
  unfold subgraphFromNodes
  have hS1 := subgraph_node_fold_edges S (subgraphNeighbors G S io ii)
    (List.range G.bound) (Graph.new G.bound G.weighted G.directed)
  rw [foldl_addEdge_cond_edges
    (fun e => isRelevantNode S (subgraphNeighbors G S io ii) e.src +
      isRelevantNode S (subgraphNeighbors G S io ii) e.dst > 2)
    G.edges _ (by rw [hS1.2.2.2.2]; rfl)]
  rw [hS1.1]
  simp

/-- C4: every edge of the plain induced subgraph has both endpoints in the
node set; with any neighbor-expansion flags no edge joins two nodes both
outside the set; and an input edge is kept exactly when its relevance
scores sum above 2. -/
theorem subgraph_edge_rule (G : Graph) (S : List Nat) (io ii : Bool) :
    (∀ e ∈ (subgraphFromNodes G S false false).edges, e.src ∈ S ∧ e.dst ∈ S) ∧
    (∀ e ∈ (subgraphFromNodes G S io ii).edges, e.src ∈ S ∨ e.dst ∈ S) ∧
    (subgraphFromNodes G S io ii).edges
      = (G.edges.filter (fun e =>
          isRelevantNode S (subgraphNeighbors G S io ii) e.src +
          isRelevantNode S (subgraphNeighbors G S io ii) e.dst > 2)).map
          (fun e => { src := e.src, dst := e.dst, w := e.w, id := 0 }) := by
  refine ⟨?_, ?_, subgraph_edges_eq G S io ii⟩
  · intro e he
    rw [subgraph_edges_eq G S false false] at he
    simp only [List.mem_map, List.mem_filter, decide_eq_true_eq] at he
    obtain ⟨e0, ⟨_, hrel⟩, hmap⟩ := he
    have hnb : subgraphNeighbors G S false false = [] := rfl
    rw [hnb] at hrel
    have hsrc : e0.src ∈ S := by
      by_contra hn
      have h1 := isRelevantNode_nil_of_not_mem hn
      have h2 := isRelevantNode_le_two S ([] : List Nat) e0.dst
      omega
    have hdst : e0.dst ∈ S := by
      by_contra hn
      have h1 := isRelevantNode_nil_of_not_mem hn
      have h2 := isRelevantNode_le_two S ([] : List Nat) e0.src
      omega
    rw [← hmap]
    exact ⟨hsrc, hdst⟩
  · intro e he
    rw [subgraph_edges_eq G S io ii] at he
    simp only [List.mem_map, List.mem_filter, decide_eq_true_eq] at he
    obtain ⟨e0, ⟨_, hrel⟩, hmap⟩ := he
    subst hmap
    dsimp only
    by_contra hn
    push_neg at hn
    have h1 := isRelevantNode_of_not_mem (subgraphNeighbors G S io ii) hn.1
    have h2 := isRelevantNode_of_not_mem (subgraphNeighbors G S io ii) hn.2
    omega

/-- Witness for C4: the kept edge of a concrete induced subgraph has both
endpoints in the node set. -/
theorem subgraph_edge_rule_witness :
    ({ src := 0, dst := 1, w := 1, id := 0 } : Edge).src ∈ [0, 1] ∧
    ({ src := 0, dst := 1, w := 1, id := 0 } : Edge).dst ∈ [0, 1] :=
  (subgraph_edge_rule exD [0, 1] false false).1 _ (by decide)

/-- C9: every member of an existing-node set survives subgraph extraction
even with no surviving edges, relevance-0 nodes are removed, and the
result keeps the input's bound and flags. -/
theorem subgraph_node_retention (G : Graph) (S : List Nat) (io ii : Bool)
    (hS : ∀ u ∈ S, G.hasNode u = true) :
    (∀ u ∈ S, (subgraphFromNodes G S io ii).hasNode u = true) ∧
    (∀ u, isRelevantNode S (subgraphNeighbors G S io ii) u = 0 →
      (subgraphFromNodes G S io ii).hasNode u = false) ∧
    (subgraphFromNodes G S io ii).bound = G.bound ∧
    (subgraphFromNodes G S io ii).weighted = G.weighted ∧
    (subgraphFromNodes G S io ii).directed = G.directed := by
  have halive : ∀ v, (subgraphFromNodes G S io ii).alive v
      = (decide (v < G.bound) &&
         !((List.range G.bound).contains v &&
           (isRelevantNode S (subgraphNeighbors G S io ii) v == 0))) := by
    intro v
    unfold subgraphFromNodes
    rw [foldl_preserves _ Graph.alive (by intro x b; split <;> rfl) G.edges _]
    rw [foldl_removeNode_alive
      (fun u => isRelevantNode S (subgraphNeighbors G S io ii) u == 0)
      (List.range G.bound) (Graph.new G.bound G.weighted G.directed) v]
    rfl
  have hbound : (subgraphFromNodes G S io ii).bound = G.bound := by
    unfold subgraphFromNodes
    rw [foldl_preserves _ Graph.bound (by intro x b; split <;> rfl) G.edges _]
    rw [(subgraph_node_fold_edges _ _ _ _).2.1]
    rfl
  have hwtd : (subgraphFromNodes G S io ii).weighted = G.weighted := by
    unfold subgraphFromNodes
    rw [foldl_preserves _ Graph.weighted (by intro x b; split <;> rfl) G.edges _]
    rw [(subgraph_node_fold_edges _ _ _ _).2.2.2.1]
    rfl
  have hdir : (subgraphFromNodes G S io ii).directed = G.directed := by
    unfold subgraphFromNodes
    rw [foldl_preserves _ Graph.directed (by intro x b; split <;> rfl) G.edges _]
    rw [(subgraph_node_fold_edges _ _ _ _).2.2.1]
    rfl
  refine ⟨?_, ?_, hbound, hwtd, hdir⟩
  · intro u hu
    have hlt : u < G.bound := hasNode_lt (hS u hu)
    have hrel : isRelevantNode S (subgraphNeighbors G S io ii) u = 2 :=
      (isRelevantNode_eq_two_iff _ _ _).mpr hu
    rw [hasNode_eq, hbound, halive u, hrel]
    simp [hlt]
  · intro u hrel
    rw [hasNode_eq, hbound, halive u, hrel]
    by_cases hlt : u < G.bound
    · simp [hlt, List.contains_cons]
    · simp [hlt]

/-- Witness for C9 at a concrete graph and node set. -/
theorem subgraph_node_retention_witness :
    (∀ u ∈ [3], (subgraphFromNodes exD [3] false false).hasNode u = true) ∧
    (∀ u, isRelevantNode [3] (subgraphNeighbors exD [3] false false) u = 0 →
      (subgraphFromNodes exD [3] false false).hasNode u = false) ∧
    (subgraphFromNodes exD [3] false false).bound = exD.bound ∧
    (subgraphFromNodes exD [3] false false).weighted = exD.weighted ∧
    (subgraphFromNodes exD [3] false false).directed = exD.directed :=
  subgraph_node_retention exD [3] false false (by decide)

/-- C3: transpose fails with the explicit recoverable invalid-operation
error on every undirected graph, and never raises it on a directed one. -/
theorem transpose_undirected_rejected (G G' : Graph)
    (h : G.directed = false) (h' : G'.directed = true) :
    transpose G = Except.error transposeErrorMessage ∧
    ∃ H, transpose G' = Except.ok H := by
  constructor
  · simp [transpose, h]
  · unfold transpose
    simp only [h', Bool.not_true, Bool.false_eq_true, if_false]
    exact ⟨_, rfl⟩

/-- Witness for C3 at the empty undirected graph and a directed graph. -/
theorem transpose_undirected_rejected_witness :
    transpose (Graph.new 0 false false) = Except.error transposeErrorMessage ∧
    ∃ H, transpose (Graph.new 2 false true) = Except.ok H :=
  transpose_undirected_rejected (Graph.new 0 false false) (Graph.new 2 false true) rfl rfl

theorem rev_rev (e : Edge) : e.rev.rev = e := rfl

theorem transpose_ok_of_directed (G : Graph) (hd : G.directed = true) :
    ∃ T, transpose G = Except.ok T := by
  unfold transpose
  simp only [hd, Bool.not_true, Bool.false_eq_true, if_false]
  exact ⟨_, rfl⟩

theorem transposeFold_alive (G : Graph) :
    ∀ (l : List Nat) (H : Graph) (v : Nat),
    (l.foldl (fun H u =>
        if G.hasNode u then
          { H with edges := H.edges ++ (G.inEdges u).map (fun e => { src := u, dst := e.src, w := e.w, id := e.id }) }
        else H.removeNode u) H).alive v
      = (H.alive v && !(l.contains v && !G.hasNode v)) := by
  intro l
  induction l with
  | nil => intro H v; simp
  | cons b t ih =>
    intro H v
    cases hb : G.hasNode b with
    | true =>
      simp only [List.foldl_cons, hb, if_true]
      rw [ih]
      by_cases hv : v = b
      · subst hv; simp [hb, List.contains_cons]
      · simp [List.contains_cons, hv]
    | false =>
      simp only [List.foldl_cons, hb, Bool.false_eq_true, if_false]
      rw [ih, removeNode_alive]
      by_cases hv : v = b
      · subst hv; simp [hb, List.contains_cons]
      · simp [List.contains_cons, hv]

theorem transposeFold_edges (G : Graph) :
    ∀ (l : List Nat) (H : Graph),
    (l.foldl (fun H u =>
        if G.hasNode u then
          { H with edges := H.edges ++ (G.inEdges u).map (fun e => { src := u, dst := e.src, w := e.w, id := e.id }) }
        else H.removeNode u) H).edges
      = H.edges ++ (l.filter G.hasNode).flatMap
          (fun u => (G.inEdges u).map (fun e => { src := u, dst := e.src, w := e.w, id := e.id })) := by
  intro l
  induction l with
  | nil => intro H; simp
  | cons b t ih =>
    intro H
    cases hb : G.hasNode b with
    | true =>
      simp only [List.foldl_cons, hb, if_true]
      rw [ih]
      simp [List.filter_cons, hb, List.append_assoc]
    | false =>
      simp only [List.foldl_cons, hb, Bool.false_eq_true, if_false]
      rw [ih]
      simp [List.filter_cons, hb]

theorem transposeInit_bound (G : Graph) :
    (if G.indexed = true then { Graph.new G.bound G.weighted true with indexed := true }
     else Graph.new G.bound G.weighted true).bound = G.bound := by
  cases G.indexed <;> rfl

theorem transposeInit_alive (G : Graph) (v : Nat) :
    (if G.indexed = true then { Graph.new G.bound G.weighted true with indexed := true }
     else Graph.new G.bound G.weighted true).alive v = decide (v < G.bound) := by
  cases G.indexed <;> rfl

theorem transposeInit_edges (G : Graph) :
    (if G.indexed = true then { Graph.new G.bound G.weighted true with indexed := true }
     else Graph.new G.bound G.weighted true).edges = [] := by
  cases G.indexed <;> rfl

theorem transposeInit_directed (G : Graph) :
    (if G.indexed = true then { Graph.new G.bound G.weighted true with indexed := true }
     else Graph.new G.bound G.weighted true).directed = true := by
  cases G.indexed <;> rfl

theorem transposeInit_weighted (G : Graph) :
    (if G.indexed = true then { Graph.new G.bound G.weighted true with indexed := true }
     else Graph.new G.bound G.weighted true).weighted = G.weighted := by
  cases G.indexed <;> rfl

theorem transposeInit_indexed (G : Graph) :
    (if G.indexed = true then { Graph.new G.bound G.weighted true with indexed := true }
     else Graph.new G.bound G.weighted true).indexed = G.indexed := by
  cases hI : G.indexed <;> simp

theorem transpose_char (G T : Graph) (hd : G.directed = true)
    (h : transpose G = Except.ok T) :
    T.bound = G.bound ∧ T.directed = true ∧ T.weighted = G.weighted ∧
    T.indexed = G.indexed ∧
    (∀ v, T.hasNode v = G.hasNode v) ∧
    (∀ e : Edge, e ∈ T.edges ↔ (G.hasNode e.src = true ∧ e.rev ∈ G.edges)) ∧
    T.edgeCount = G.edgeCount ∧ T.loopCount = G.loopCount ∧
    T.idBound = G.idBound := by
  unfold transpose at h
  rw [hd] at h
  simp only [Bool.not_true, Bool.false_eq_true, if_false, Except.ok.injEq] at h
  subst h
  refine ⟨?_, ?_, ?_, ?_, ?_, ?_, rfl, rfl, rfl⟩
  · dsimp only
    rw [foldl_preserves _ Graph.bound (by intro x b; split <;> rfl), transposeInit_bound]
  · dsimp only
    rw [foldl_preserves _ Graph.directed (by intro x b; split <;> rfl), transposeInit_directed]
  · dsimp only
    rw [foldl_preserves _ Graph.weighted (by intro x b; split <;> rfl), transposeInit_weighted]
  · dsimp only
    rw [foldl_preserves _ Graph.indexed (by intro x b; split <;> rfl), transposeInit_indexed]
  · intro v
    rw [hasNode_eq]
    dsimp only
    rw [foldl_preserves _ Graph.bound (by intro x b; split <;> rfl), transposeInit_bound]
    rw [transposeFold_alive G (List.range G.bound) _ v, transposeInit_alive]
    by_cases hlt : v < G.bound
    · have hcv : (List.range G.bound).contains v = true := by simp [hlt]
      rw [hcv]
      cases hG : G.hasNode v
      · simp [hlt, hG]
      · simp [hlt, hG]
    · have hGv : G.hasNode v = false := by
        rw [hasNode_eq]
        simp [hlt]
      simp [hlt, hGv]
  · intro e
    dsimp only
    rw [transposeFold_edges G (List.range G.bound) _, transposeInit_edges]
    simp only [List.nil_append, List.mem_flatMap, List.mem_filter, List.mem_range,
      List.mem_map]
    constructor
    · rintro ⟨u, ⟨_, hu⟩, e0, he0, rfl⟩
      unfold Graph.inEdges at he0
      rw [List.mem_filter] at he0
      simp only [beq_iff_eq] at he0
      refine ⟨hu, ?_⟩
      have hre : Edge.rev { src := u, dst := e0.src, w := e0.w, id := e0.id } = e0 := by
        unfold Edge.rev
        cases e0
        simp only at he0 ⊢
        rw [he0.2]
      rw [hre]
      exact he0.1
    · rintro ⟨hu, hrev⟩
      refine ⟨e.src, ⟨hasNode_lt hu, hu⟩, e.rev, ?_, ?_⟩
      · unfold Graph.inEdges
        rw [List.mem_filter]
        simp only [beq_iff_eq]
        exact ⟨hrev, rfl⟩
      · cases e
        rfl

/-- C2: double transpose of a directed, edge-indexed graph is structurally
the original: same node-existence pattern, same directed edge records
(weights and edge ids included), same self-loop count, same edge count. -/
theorem transpose_involution (G : Graph) (hw : G.wf = true)
    (hd : G.directed = true) (_hi : G.indexed = true) :
    ∃ T2, transposeTwice G = Except.ok T2 ∧
      T2.bound = G.bound ∧
      (∀ v, T2.hasNode v = G.hasNode v) ∧
      (∀ e : Edge, e ∈ T2.edges ↔ e ∈ G.edges) ∧
      T2.edgeCount = G.edgeCount ∧ T2.loopCount = G.loopCount ∧
      T2.idBound = G.idBound := by
  obtain ⟨T, hT⟩ := transpose_ok_of_directed G hd
  have c1 := transpose_char G T hd hT
  obtain ⟨T2, hT2⟩ := transpose_ok_of_directed T c1.2.1
  have c2 := transpose_char T T2 c1.2.1 hT2
  refine ⟨T2, ?_, ?_, ?_, ?_, ?_, ?_, ?_⟩
  · unfold transposeTwice
    rw [hT]
    simpa using hT2
  · rw [c2.1, c1.1]
  · intro v
    rw [c2.2.2.2.2.1 v, c1.2.2.2.2.1 v]
  · intro e
    rw [c2.2.2.2.2.2.1 e, c1.2.2.2.2.2.1 e.rev, rev_rev, c1.2.2.2.2.1 e.src]
    constructor
    · rintro ⟨_, _, h⟩
      exact h
    · intro h
      have hend := wf_endpoints hw e h
      exact ⟨hend.1, hend.2, h⟩
  · rw [c2.2.2.2.2.2.2.1, c1.2.2.2.2.2.2.1]
  · rw [c2.2.2.2.2.2.2.2.1, c1.2.2.2.2.2.2.2.1]
  · rw [c2.2.2.2.2.2.2.2.2, c1.2.2.2.2.2.2.2.2]

/-- Witness for C2 at a concrete directed, edge-indexed graph. -/
theorem transpose_involution_witness :
    ∃ T2, transposeTwice exD = Except.ok T2 ∧
      T2.bound = exD.bound ∧
      (∀ v, T2.hasNode v = exD.hasNode v) ∧
      (∀ e : Edge, e ∈ T2.edges ↔ e ∈ exD.edges) ∧
      T2.edgeCount = exD.edgeCount ∧ T2.loopCount = exD.loopCount ∧
      T2.idBound = exD.idBound :=
  transpose_involution exD (by decide) rfl rfl

/-- C8: the graph returned by transpose carries the source's edge count,
self-loop count and edge-id bound, finalized in one step. -/
theorem transpose_counters (G T : Graph) (hd : G.directed = true)
    (h : transpose G = Except.ok T) :
    T.edgeCount = G.edgeCount ∧ T.loopCount = G.loopCount ∧ T.idBound = G.idBound := by
  unfold transpose at h
  rw [hd] at h
  simp only [Bool.not_true, Bool.false_eq_true, if_false, Except.ok.injEq] at h
  subst h
  exact ⟨rfl, rfl, rfl⟩

/-- Witness for C8 at a concrete directed graph. -/
theorem transpose_counters_witness :
    ∃ T, transpose exD = Except.ok T ∧
      T.edgeCount = exD.edgeCount ∧ T.loopCount = exD.loopCount ∧
      T.idBound = exD.idBound := by
  refine ⟨_, rfl, ?_⟩
  exact transpose_counters exD _ rfl rfl

theorem contains_eq_true_of_mem {l : List Nat} {a : Nat} (h : a ∈ l) :
    l.contains a = true := by
  simp [h]

theorem contains_eq_false_of_not_mem {l : List Nat} {a : Nat} (h : a ∉ l) :
    l.contains a = false := by
  cases hc : l.contains a
  · rfl
  · simp at hc
    exact absurd hc h

theorem alive_of_hasNode {H : Graph} {v : Nat} (h : H.hasNode v = true) :
    H.alive v = true := by
  rw [hasNode_eq] at h
  simp at h
  exact h.2

theorem addNode_bound (G : Graph) : (G.addNode).bound = G.bound + 1 := rfl

theorem addNode_alive (G : Graph) (v : Nat) :
    (G.addNode).alive v = if v = G.bound then true else G.alive v := rfl

theorem growFold_bound (G : Graph) :
    ∀ k : Nat, ((List.range k).foldl (fun H _ => H.addNode) G).bound = G.bound + k := by
  intro k
  induction k with
  | zero => rfl
  | succ n ih =>
    rw [List.range_succ, List.foldl_append]
    simp only [List.foldl_cons, List.foldl_nil]
    rw [addNode_bound, ih]
    omega

theorem growFold_alive (G : Graph) :
    ∀ (k : Nat) (v : Nat),
    ((List.range k).foldl (fun H _ => H.addNode) G).alive v
      = (decide (G.bound ≤ v) && decide (v < G.bound + k) || G.alive v) := by
  intro k
  induction k with
  | zero =>
    intro v
    show G.alive v = _
    by_cases h1 : G.bound ≤ v
    · by_cases h2 : v < G.bound + 0
      · omega
      · simp [h1, h2]
    · simp [h1]
  | succ n ih =>
    intro v
    rw [List.range_succ, List.foldl_append]
    simp only [List.foldl_cons, List.foldl_nil]
    rw [addNode_alive, growFold_bound, ih]
    by_cases hv : v = G.bound + n
    · have d1 : decide (G.bound ≤ v) = true := by simp [hv]
      have d2 : decide (v < G.bound + (n + 1)) = true := by simp [hv]
      simp [hv, d1, d2]
    · rw [if_neg hv]
      by_cases h1 : G.bound ≤ v <;> by_cases h2 : v < G.bound + n <;>
        by_cases h3 : v < G.bound + (n + 1) <;>
        first
        | omega
        | simp [h1, h2, h3]

theorem growFold_edges (G : Graph) (k : Nat) :
    ((List.range k).foldl (fun H _ => H.addNode) G).edges = G.edges :=
  foldl_preserves (fun H _ => H.addNode) Graph.edges (fun _ _ => rfl) (List.range k) G

theorem growFold_directed (G : Graph) (k : Nat) :
    ((List.range k).foldl (fun H _ => H.addNode) G).directed = G.directed :=
  foldl_preserves (fun H _ => H.addNode) Graph.directed (fun _ _ => rfl) (List.range k) G

theorem restoreFold_alive (G1 : Graph) :
    ∀ (l : List Nat), l.Nodup → ∀ (H : Graph) (v : Nat),
    ((l.foldl (fun H i => if !H.hasNode i && G1.hasNode i then H.restoreNode i else H) H).alive v)
      = (H.alive v || (l.contains v && G1.hasNode v)) := by
  intro l
  induction l with
  | nil => intro _ H v; simp
  | cons b t ih =>
    intro hnd H v
    have hndt : t.Nodup := (List.nodup_cons.mp hnd).2
    have hbt : b ∉ t := (List.nodup_cons.mp hnd).1
    simp only [List.foldl_cons]
    rw [ih hndt]
    by_cases hv : v = b
    · subst hv
      have hct : t.contains v = false := contains_eq_false_of_not_mem hbt
      have hcc : (v :: t).contains v = true := by simp [List.contains_cons]
      rw [hct, hcc]
      cases hcond : (!H.hasNode v && G1.hasNode v)
      · simp only [Bool.false_eq_true, if_false]
        cases hG1 : G1.hasNode v
        · simp [hG1]
        · rw [hG1] at hcond
          simp at hcond
          rw [alive_of_hasNode hcond]
          simp
      · rw [if_pos rfl, restoreNode_alive]
        simp only [if_pos rfl]
        simp at hcond
        simp [hcond.2]
    · have hstep :
          ((if !H.hasNode b && G1.hasNode b then H.restoreNode b else H)).alive v
            = H.alive v := by
        split
        · rw [restoreNode_alive, if_neg hv]
        · rfl
      rw [hstep]
      simp [List.contains_cons, hv]

theorem addEdge_hasEdge_self (H : Graph) (u v : Nat) (w : Int) :
    (H.addEdge u v w).hasEdge u v = true := by
  unfold Graph.hasEdge
  rw [addEdge_directed, addEdge_edges]
  cases H.directed <;> simp [List.any_append]

theorem addEdge_hasEdge_mono {H : Graph} {u v : Nat} (a b : Nat) (w : Int)
    (h : H.hasEdge u v = true) : (H.addEdge a b w).hasEdge u v = true := by
  unfold Graph.hasEdge at h ⊢
  rw [addEdge_directed, addEdge_edges]
  cases hd : H.directed <;> rw [hd] at h <;> simp_all [List.any_append]

theorem hasEdge_congr {H K : Graph} (he : H.edges = K.edges)
    (hd : H.directed = K.directed) (u v : Nat) :
    H.hasEdge u v = K.hasEdge u v := by
  unfold Graph.hasEdge
  rw [he, hd]

theorem edgeMultiplicity_congr {H K : Graph} (he : H.edges = K.edges)
    (hd : H.directed = K.directed) (u v : Nat) :
    H.edgeMultiplicity u v = K.edgeMultiplicity u v := by
  unfold Graph.edgeMultiplicity
  rw [he, hd]

theorem hasEdge_swap (H : Graph) (hnd : H.directed = false) (u v : Nat) :
    H.hasEdge u v = H.hasEdge v u := by
  unfold Graph.hasEdge
  rw [hnd]
  simp only [Bool.false_eq_true, if_false]
  congr 1
  funext e
  rw [Bool.or_comm]

theorem mergeGrow_bound (G G1 : Graph) :
    (mergeGrow G G1).bound = max G.bound G1.bound := by
  unfold mergeGrow
  by_cases hb : G1.bound > G.bound
  · rw [if_pos hb]
    rw [foldl_preserves _ Graph.bound (by intro x b; split <;> rfl)]
    rw [growFold_bound]
    omega
  · rw [if_neg hb]
    omega

theorem mergeGrow_edges (G G1 : Graph) : (mergeGrow G G1).edges = G.edges := by
  unfold mergeGrow
  by_cases hb : G1.bound > G.bound
  · rw [if_pos hb]
    rw [foldl_preserves _ Graph.edges (by intro x b; split <;> rfl)]
    exact growFold_edges G _
  · rw [if_neg hb]

theorem mergeGrow_directed (G G1 : Graph) :
    (mergeGrow G G1).directed = G.directed := by
  unfold mergeGrow
  by_cases hb : G1.bound > G.bound
  · rw [if_pos hb]
    rw [foldl_preserves _ Graph.directed (by intro x b; split <;> rfl)]
    exact growFold_directed G _
  · rw [if_neg hb]

theorem mergeGrow_hasNode (G G1 : Graph) (v : Nat) :
    (mergeGrow G G1).hasNode v
      = (G.hasNode v || (decide (G.bound ≤ v) && G1.hasNode v)) := by
  unfold mergeGrow
  by_cases hb : G1.bound > G.bound
  · rw [if_pos hb, hasNode_eq]
    rw [foldl_preserves _ Graph.bound (by intro x b; split <;> rfl),
        growFold_bound]
    rw [foldl_removeNode_alive (fun i => !G1.hasNode i) _ _ v]
    rw [growFold_alive]
    have hkeq : G.bound + (G1.bound - G.bound) = G1.bound := by omega
    rw [hkeq]
    by_cases h1 : G.bound ≤ v
    · by_cases h2 : v < G1.bound
      · have hc : (List.range' G.bound (G1.bound - G.bound)).contains v = true :=
          contains_eq_true_of_mem (by rw [List.mem_range'_1]; omega)
        have hGn : G.hasNode v = false := by
          rw [hasNode_eq]
          have hd0 : decide (v < G.bound) = false := by simp; omega
          rw [hd0]
          rfl
        have d1 : decide (G.bound ≤ v) = true := by simp [h1]
        have d2 : decide (v < G1.bound) = true := by simp [h2]
        rw [hc, hGn, d1, d2]
        cases G1.hasNode v <;> simp
      · have hc : (List.range' G.bound (G1.bound - G.bound)).contains v = false :=
          contains_eq_false_of_not_mem (by rw [List.mem_range'_1]; omega)
        have hGn : G.hasNode v = false := by
          rw [hasNode_eq]
          have hd0 : decide (v < G.bound) = false := by simp; omega
          rw [hd0]
          rfl
        have hG1n : G1.hasNode v = false := by
          rw [hasNode_eq]
          have hd0 : decide (v < G1.bound) = false := by simp; omega
          rw [hd0]
          rfl
        have d1 : decide (G.bound ≤ v) = true := by simp [h1]
        have d2 : decide (v < G1.bound) = false := by simp; omega
        rw [hc, hGn, hG1n, d1, d2]
        simp
    · have hc : (List.range' G.bound (G1.bound - G.bound)).contains v = false :=
        contains_eq_false_of_not_mem (by rw [List.mem_range'_1]; omega)
      have d1 : decide (G.bound ≤ v) = false := by simp [h1]
      have d2 : decide (v < G1.bound) = true := by simp; omega
      have d3 : decide (v < G.bound) = true := by simp; omega
      rw [hc, d1, d2, hasNode_eq G v, d3]
      simp
  · rw [if_neg hb]
    cases hG1 : G1.hasNode v
    · simp
    · have hlt : v < G1.bound := hasNode_lt hG1
      have d1 : decide (G.bound ≤ v) = false := by simp; omega
      rw [d1]
      simp

theorem mergeRestore_bound (G1 Ga : Graph) :
    (mergeRestore G1 Ga).bound = Ga.bound := by
  unfold mergeRestore
  exact foldl_preserves _ Graph.bound (by intro x b; split <;> rfl) _ _

theorem mergeRestore_edges (G1 Ga : Graph) :
    (mergeRestore G1 Ga).edges = Ga.edges := by
  unfold mergeRestore
  exact foldl_preserves _ Graph.edges (by intro x b; split <;> rfl) _ _

theorem mergeRestore_directed (G1 Ga : Graph) :
    (mergeRestore G1 Ga).directed = Ga.directed := by
  unfold mergeRestore
  exact foldl_preserves _ Graph.directed (by intro x b; split <;> rfl) _ _

theorem mergeRestore_hasNode (G1 Ga : Graph) (v : Nat) :
    (mergeRestore G1 Ga).hasNode v
      = (Ga.hasNode v || (decide (v < Ga.bound) && G1.hasNode v)) := by
  rw [hasNode_eq (mergeRestore G1 Ga) v, mergeRestore_bound]
  unfold mergeRestore
  rw [restoreFold_alive G1 _ (List.nodup_range _) _ v]
  by_cases hv : v < Ga.bound
  · have hc : (List.range Ga.bound).contains v = true :=
      contains_eq_true_of_mem (by simp [hv])
    have d : decide (v < Ga.bound) = true := by simp [hv]
    rw [hc, d, hasNode_eq Ga v, d]
    cases Ga.alive v <;> cases G1.hasNode v <;> simp
  · have d : decide (v < Ga.bound) = false := by simp [hv]
    rw [d, hasNode_eq Ga v, d]
    simp

theorem mergeEdges_bound (G1 Gb : Graph) :
    (mergeEdges G1 Gb).bound = Gb.bound := by
  unfold mergeEdges
  exact foldl_preserves (fun H e => if !H.hasEdge e.src e.dst then H.addEdge e.src e.dst e.w else H) Graph.bound
    (by intro x b; dsimp only; split <;> rfl) G1.edges Gb

theorem mergeEdges_directed (G1 Gb : Graph) :
    (mergeEdges G1 Gb).directed = Gb.directed := by
  unfold mergeEdges
  exact foldl_preserves (fun H e => if !H.hasEdge e.src e.dst then H.addEdge e.src e.dst e.w else H) Graph.directed
    (by intro x b; dsimp only; split <;> rfl) G1.edges Gb

theorem mergeEdges_hasNode (G1 Gb : Graph) (v : Nat) :
    (mergeEdges G1 Gb).hasNode v = Gb.hasNode v := by
  unfold mergeEdges
  exact foldl_preserves (fun H e => if !H.hasEdge e.src e.dst then H.addEdge e.src e.dst e.w else H) (fun H : Graph => H.hasNode v)
    (by intro x b; dsimp only; split <;> rfl) G1.edges Gb

theorem mergeEdges_edges_prefix (G1 Gb : Graph) :
    ∃ l2, (mergeEdges G1 Gb).edges = Gb.edges ++ l2 := by
  unfold mergeEdges
  refine foldl_pred_mono (fun H e => if !H.hasEdge e.src e.dst then H.addEdge e.src e.dst e.w else H)
    (fun x : Graph => ∃ l2, x.edges = Gb.edges ++ l2) ?_ G1.edges Gb ⟨[], by simp⟩
  rintro x e ⟨l2, hl⟩
  dsimp only
  split
  · refine ⟨l2 ++ [{ src := e.src, dst := e.dst, w := e.w, id := if x.indexed then x.idBound else 0 }], ?_⟩
    rw [addEdge_edges, hl, List.append_assoc]
  · exact ⟨l2, hl⟩

theorem mergeEdges_hasEdge_mono (G1 Gb : Graph) (u v : Nat)
    (h : Gb.hasEdge u v = true) : (mergeEdges G1 Gb).hasEdge u v = true := by
  unfold mergeEdges
  refine foldl_pred_mono (fun H e => if !H.hasEdge e.src e.dst then H.addEdge e.src e.dst e.w else H)
    (fun x : Graph => x.hasEdge u v = true) ?_ G1.edges Gb h
  intro x e hx
  dsimp only
  split
  · exact addEdge_hasEdge_mono _ _ _ hx
  · exact hx

theorem mergeEdges_hasEdge_all (G1 Gb : Graph) :
    ∀ e ∈ G1.edges, (mergeEdges G1 Gb).hasEdge e.src e.dst = true := by
  unfold mergeEdges
  suffices h : ∀ (l : List Edge) (H : Graph), ∀ e ∈ l,
      (l.foldl (fun H e => if !H.hasEdge e.src e.dst then H.addEdge e.src e.dst e.w else H) H).hasEdge e.src e.dst = true by
    exact h G1.edges Gb
  intro l
  induction l with
  | nil => intro H e he; cases he
  | cons b t ih =>
    intro H e he
    simp only [List.foldl_cons]
    rcases List.mem_cons.mp he with rfl | ht
    · have hstep :
          ((if !H.hasEdge e.src e.dst then H.addEdge e.src e.dst e.w else H)).hasEdge e.src e.dst = true := by
        cases hc : H.hasEdge e.src e.dst
        · simp only [hc, Bool.not_false, if_true]
          exact addEdge_hasEdge_self H e.src e.dst e.w
        · simp only [hc, Bool.not_true, Bool.false_eq_true, if_false]
      refine foldl_pred_mono (fun H e => if !H.hasEdge e.src e.dst then H.addEdge e.src e.dst e.w else H)
        (fun x : Graph => x.hasEdge e.src e.dst = true) ?_ t _ hstep
      intro x b hx
      dsimp only
      split
      · exact addEdge_hasEdge_mono _ _ _ hx
      · exact hx
    · exact ih _ e ht

theorem mergeEdgesFold_mult :
    ∀ (l : List Edge) (H : Graph) (u v : Nat), H.hasEdge u v = true →
    ((l.foldl (fun H e => if !H.hasEdge e.src e.dst then H.addEdge e.src e.dst e.w else H) H).edgeMultiplicity u v
        = H.edgeMultiplicity u v) := by
  intro l
  induction l with
  | nil => intro H u v _; rfl
  | cons b t ih =>
    intro H u v h
    simp only [List.foldl_cons]
    cases hc : H.hasEdge b.src b.dst
    · simp only [hc, Bool.not_false, if_true]
      have hmul : (H.addEdge b.src b.dst b.w).edgeMultiplicity u v
          = H.edgeMultiplicity u v := by
        unfold Graph.edgeMultiplicity
        rw [addEdge_directed, addEdge_edges]
        cases hd : H.directed
        · simp only [Bool.false_eq_true, if_false, List.filter_append,
            List.length_append]
          have hnil : List.filter
              (fun e => (e.src == u && e.dst == v) || (e.src == v && e.dst == u))
              [({ src := b.src, dst := b.dst, w := b.w, id := if H.indexed = true then H.idBound else 0 } : Edge)] = [] := by
            rw [List.filter_eq_nil_iff]
            intro a ha
            simp only [List.mem_singleton] at ha
            subst ha
            dsimp only
            intro hq
            simp at hq
            rcases hq with ⟨h1, h2⟩ | ⟨h1, h2⟩
            · rw [h1, h2] at hc
              rw [hc] at h
              exact Bool.noConfusion h
            · rw [h1, h2] at hc
              rw [hasEdge_swap H hd v u] at hc
              rw [hc] at h
              exact Bool.noConfusion h
          rw [hnil]
          simp
        · simp only [if_true, List.filter_append, List.length_append]
          have hnil : List.filter (fun e => e.src == u && e.dst == v)
              [({ src := b.src, dst := b.dst, w := b.w, id := if H.indexed = true then H.idBound else 0 } : Edge)] = [] := by
            rw [List.filter_eq_nil_iff]
            intro a ha
            simp only [List.mem_singleton] at ha
            subst ha
            dsimp only
            intro hq
            simp at hq
            rw [hq.1, hq.2] at hc
            rw [hc] at h
            exact Bool.noConfusion h
          rw [hnil]
          simp
      rw [ih _ u v (addEdge_hasEdge_mono _ _ _ h), hmul]
    · simp only [hc, Bool.not_true, Bool.false_eq_true, if_false]
      exact ih _ u v h

theorem merge_bound (G G1 : Graph) :
    (merge G G1).bound = max G.bound G1.bound := by
  unfold merge
  rw [mergeEdges_bound, mergeRestore_bound, mergeGrow_bound]

theorem merge_hasNode (G G1 : Graph) (v : Nat) :
    (merge G G1).hasNode v = (G.hasNode v || G1.hasNode v) := by
  unfold merge
  rw [mergeEdges_hasNode, mergeRestore_hasNode, mergeGrow_hasNode,
    mergeGrow_bound]
  cases hG1 : G1.hasNode v
  · simp
  · have hlt : v < G1.bound := hasNode_lt hG1
    have d : decide (v < max G.bound G1.bound) = true := by simp; omega
    rw [d]
    by_cases h1 : G.bound ≤ v
    · have d1 : decide (G.bound ≤ v) = true := by simp [h1]
      rw [d1]
      simp
    · have d1 : decide (G.bound ≤ v) = false := by simp [h1]
      rw [d1]
      simp

theorem merge_edges_prefix (G G1 : Graph) :
    ∃ l2, (merge G G1).edges = G.edges ++ l2 := by
  unfold merge
  obtain ⟨l2, h⟩ := mergeEdges_edges_prefix G1 (mergeRestore G1 (mergeGrow G G1))
  rw [mergeRestore_edges, mergeGrow_edges] at h
  exact ⟨l2, h⟩

theorem merge_hasEdge_source (G G1 : Graph) :
    ∀ e ∈ G1.edges, (merge G G1).hasEdge e.src e.dst = true := by
  unfold merge
  exact mergeEdges_hasEdge_all G1 _

/-- C10: merge never removes or rewrites pre-existing target structure:
every node the target had still exists afterwards, and every edge record
of the target is still present, its weight unchanged. -/
theorem merge_frame (G G1 : Graph) :
    (∀ u, G.hasNode u = true → (merge G G1).hasNode u = true) ∧
    (∀ e ∈ G.edges, e ∈ (merge G G1).edges) := by
  constructor
  · intro u hu
    rw [merge_hasNode]
    simp [hu]
  · intro e he
    obtain ⟨l2, hl⟩ := merge_edges_prefix G G1
    rw [hl]
    exact List.mem_append_left _ he

/-- Witness for C10 at concrete graphs. -/
theorem merge_frame_witness :
    (merge exB exA).hasNode 1 = true ∧
    ({ src := 0, dst := 1, w := 1, id := 0 } : Edge) ∈ (merge exB exA).edges :=
  ⟨(merge_frame exB exA).1 1 (by decide), (merge_frame exB exA).2 _ (by decide)⟩

/-- C5: merge adds a source edge only when the target has no edge between
its endpoints (a target that already has the edge gains no further record
between them), a second merge of the same source leaves the target
unchanged, and the specification's concrete scenario holds. -/
theorem merge_no_duplicate_idem (G G1 : Graph) :
    merge (merge G G1) G1 = merge G G1 ∧
    (∀ u v, G.hasEdge u v = true →
      (merge G G1).edgeMultiplicity u v = G.edgeMultiplicity u v) ∧
    (merge exA exB).hasNode 0 = true ∧ (merge exA exB).hasNode 1 = true ∧
    (merge exA exB).hasEdge 0 1 = true ∧ (merge exA exB).edges.length = 1 := by
  refine ⟨?_, ?_, by decide, by decide, by decide, by decide⟩
  · have h1 : mergeGrow (merge G G1) G1 = merge G G1 := by
      unfold mergeGrow
      rw [if_neg (by rw [merge_bound]; omega)]
    have h2 : mergeRestore G1 (merge G G1) = merge G G1 := by
      unfold mergeRestore
      apply foldl_fix
      intro i _
      dsimp only
      have hcond : (!(merge G G1).hasNode i && G1.hasNode i) = false := by
        cases hG1 : G1.hasNode i
        · simp
        · rw [merge_hasNode]
          simp [hG1]
      rw [hcond]
      simp
    have h3 : mergeEdges G1 (merge G G1) = merge G G1 := by
      unfold mergeEdges
      apply foldl_fix
      intro e he
      dsimp only
      rw [merge_hasEdge_source G G1 e he]
      simp
    show mergeEdges G1 (mergeRestore G1 (mergeGrow (merge G G1) G1)) = merge G G1
    rw [h1, h2, h3]
  · intro u v huv
    have hGb : (mergeRestore G1 (mergeGrow G G1)).hasEdge u v = true := by
      have he : (mergeRestore G1 (mergeGrow G G1)).edges = G.edges := by
        rw [mergeRestore_edges, mergeGrow_edges]
      have hdd : (mergeRestore G1 (mergeGrow G G1)).directed = G.directed := by
        rw [mergeRestore_directed, mergeGrow_directed]
      rw [hasEdge_congr he hdd u v]
      exact huv
    unfold merge mergeEdges
    rw [mergeEdgesFold_mult G1.edges _ u v hGb]
    exact edgeMultiplicity_congr (by rw [mergeRestore_edges, mergeGrow_edges])
      (by rw [mergeRestore_directed, mergeGrow_directed]) u v

/-- Witness for C5: merging into a target that already has the edge adds
no duplicate record. -/
theorem merge_no_duplicate_idem_witness :
    (merge exB exB).edgeMultiplicity 0 1 = exB.edgeMultiplicity 0 1 :=
  (merge_no_duplicate_idem exB exB).2.1 0 1 (by decide)

theorem contIds_fst (G : Graph) :
    (getContinuousNodeIds G).map Prod.fst = G.nodesList := by
  unfold getContinuousNodeIds
  rw [List.map_map]
  have h : (Prod.fst ∘ fun p : Nat × Nat => (p.2, p.1)) = Prod.snd := rfl
  rw [h, List.enum_map_snd]

theorem contIds_snd (G : Graph) :
    (getContinuousNodeIds G).map Prod.snd = List.range G.numberOfNodes := by
  unfold getContinuousNodeIds
  rw [List.map_map]
  have h : (Prod.snd ∘ fun p : Nat × Nat => (p.2, p.1)) = Prod.fst := rfl
  rw [h, List.enum_map_fst]
  rfl

theorem contIds_length (G : Graph) :
    (getContinuousNodeIds G).length = G.numberOfNodes := by
  unfold getContinuousNodeIds
  rw [List.length_map, List.enum_length]
  rfl

theorem foldl_set_enumFrom (L : List Nat) :
    ∀ (k : Nat) (A : List Nat), k + L.length ≤ A.length →
    (((L.enumFrom k).map (fun p => (p.2, p.1))).foldl (fun a x => a.set x.2 x.1) A)
      = A.take k ++ L ++ A.drop (k + L.length) := by
  induction L with
  | nil =>
    intro k A _
    show A = A.take k ++ [] ++ A.drop (k + 0)
    simp
  | cons v L ih =>
    intro k A h
    simp only [List.enumFrom_cons, List.map_cons, List.foldl_cons]
    have hk : k < A.length := by
      simp only [List.length_cons] at h
      omega
    have hlen : k + 1 + L.length ≤ (A.set k v).length := by
      rw [List.length_set]
      simp only [List.length_cons] at h
      omega
    rw [ih (k + 1) (A.set k v) hlen]
    rw [List.set_eq_take_cons_drop v hk]
    have htl : (A.take k).length = k := by
      rw [List.length_take]
      omega
    have h1 : (A.take k ++ v :: A.drop (k + 1)).take (k + 1)
        = A.take k ++ [v] := by
      have hx : k + 1 = (A.take k).length + 1 := by rw [htl]
      rw [hx, List.take_append]
      rfl
    have h2 : (A.take k ++ v :: A.drop (k + 1)).drop (k + 1 + L.length)
        = A.drop (k + 1 + L.length) := by
      have hx : k + 1 + L.length = (A.take k).length + (1 + L.length) := by
        rw [htl]
        omega
      rw [hx, List.drop_append]
      have hy : 1 + L.length = L.length + 1 := by omega
      rw [hy, List.drop_succ_cons, List.drop_drop]
      congr 1
      omega
    rw [h1, h2]
    have hz : k + 1 + L.length = k + (L.length + 1) := by omega
    rw [hz]
    simp only [List.append_assoc, List.singleton_append, List.cons_append,
      List.nil_append, List.length_cons]

theorem invert_eq (G : Graph) :
    invertContinuousNodeIds (getContinuousNodeIds G) G
      = G.nodesList ++ [G.bound] := by
  unfold invertContinuousNodeIds getContinuousNodeIds
  have hA : (List.replicate (G.numberOfNodes + 1) (0 : Nat)).set G.numberOfNodes G.bound
      = List.replicate G.numberOfNodes (0 : Nat) ++ [G.bound] := by
    rw [List.set_eq_take_cons_drop _ (by simp)]
    rw [List.take_replicate, List.drop_replicate]
    have hmin : G.numberOfNodes ⊓ (G.numberOfNodes + 1) = G.numberOfNodes := by
      omega
    rw [hmin]
    simp
  rw [hA, List.enum_eq_enumFrom]
  rw [foldl_set_enumFrom G.nodesList 0 _ (by simp [Graph.numberOfNodes])]
  rw [List.take_zero, List.nil_append, Nat.zero_add]
  congr 1
  have hl : G.nodesList.length = (List.replicate G.numberOfNodes (0 : Nat)).length := by
    simp [Graph.numberOfNodes]
  rw [hl, List.drop_left]

/-- C6: the dense id map enumerates exactly the existing nodes, in
ascending original-id order, onto the dense range below numberOfNodes;
its size meets the inversion precondition, and the inverted array is the
ascending original ids followed by the upperNodeIdBound sentinel. -/
theorem continuousNodeIds_spec (G : Graph) :
    (getContinuousNodeIds G).map Prod.fst = G.nodesList ∧
    (getContinuousNodeIds G).map Prod.snd = List.range G.numberOfNodes ∧
    (getContinuousNodeIds G).length = G.numberOfNodes ∧
    invertContinuousNodeIds (getContinuousNodeIds G) G
      = G.nodesList ++ [G.bound] :=
  ⟨contIds_fst G, contIds_snd G, contIds_length G, invert_eq G⟩

theorem mem_nodesList {G : Graph} {x : Nat} (h : x ∈ G.nodesList) :
    G.hasNode x = true := by
  unfold Graph.nodesList at h
  exact (List.mem_filter.mp h).2

theorem mem_nodesList_iff {G : Graph} {x : Nat} :
    x ∈ G.nodesList ↔ G.hasNode x = true := by
  unfold Graph.nodesList
  rw [List.mem_filter, List.mem_range]
  constructor
  · exact fun h => h.2
  · intro h
    exact ⟨hasNode_lt h, h⟩

theorem range_split (u k : Nat) :
    List.range (u + k) = List.range u ++ List.range' u k := by
  rw [List.range_eq_range', List.range_eq_range']
  rw [Nat.add_comm u k]
  rw [← List.range'_append 0 u k 1]
  simp

theorem nodesList_split (G : Graph) (u : Nat) (h : u ≤ G.bound) :
    G.nodesList = (List.range u).filter G.hasNode
      ++ (List.range' u (G.bound - u)).filter G.hasNode := by
  unfold Graph.nodesList
  rw [← List.filter_append]
  congr 1
  have hb : G.bound = u + (G.bound - u) := by omega
  conv_lhs => rw [hb]
  exact range_split u (G.bound - u)

theorem nodesList_decomp (G : Graph) {u : Nat} (h : G.hasNode u = true) :
    G.nodesList = (List.range u).filter G.hasNode
      ++ u :: (List.range' (u + 1) (G.bound - u - 1)).filter G.hasNode := by
  have hu : u < G.bound := hasNode_lt h
  rw [nodesList_split G u (Nat.le_of_lt hu)]
  congr 1
  have hbu : G.bound - u = (G.bound - u - 1) + 1 := by omega
  rw [hbu, List.range'_succ, List.filter_cons]
  simp [h]

theorem denseId_le (G : Graph) (u : Nat) (h : u ≤ G.bound) :
    G.denseId u ≤ G.numberOfNodes := by
  unfold Graph.denseId Graph.numberOfNodes
  rw [nodesList_split G u h, List.length_append]
  omega

theorem nodesList_get?_denseId (G : Graph) {u : Nat} (h : G.hasNode u = true) :
    G.nodesList.get? (G.denseId u) = some u := by
  rw [nodesList_decomp G h]
  have hd : G.denseId u = (List.filter G.hasNode (List.range u)).length := rfl
  rw [hd, List.get?_append_right (Nat.le_refl _)]
  simp

theorem denseId_lt (G : Graph) {u : Nat} (h : G.hasNode u = true) :
    G.denseId u < G.numberOfNodes := by
  have hg := nodesList_get?_denseId G h
  obtain ⟨hlt, _⟩ := List.get?_eq_some.mp hg
  exact hlt

theorem denseId_inj (G : Graph) {a b : Nat} (ha : G.hasNode a = true)
    (hb : G.hasNode b = true) (h : G.denseId a = G.denseId b) : a = b := by
  have h1 := nodesList_get?_denseId G ha
  have h2 := nodesList_get?_denseId G hb
  rw [h, h2] at h1
  exact (Option.some_inj.mp h1).symm

theorem denseId_succ_alive (G : Graph) {u : Nat} (h : G.hasNode u = true) :
    G.denseId (u + 1) = G.denseId u + 1 := by
  unfold Graph.denseId
  rw [List.range_succ, List.filter_append, List.length_append, List.filter_cons]
  simp [h]

theorem denseId_succ_hole (G : Graph) {u : Nat} (h : G.hasNode u = false) :
    G.denseId (u + 1) = G.denseId u := by
  unfold Graph.denseId
  rw [List.range_succ, List.filter_append, List.length_append, List.filter_cons]
  simp [h]

theorem indexOf_append_not_mem {l1 : List Nat} {a : Nat} (h : a ∉ l1)
    (l2 : List Nat) : (l1 ++ a :: l2).indexOf a = l1.length := by
  induction l1 with
  | nil => simp [List.indexOf_cons_self]
  | cons b t ih =>
    simp only [List.mem_cons, not_or] at h
    rw [List.cons_append, List.indexOf_cons_ne _ (Ne.symm h.1), ih h.2]
    rfl

theorem lookup_swap_enumFrom (L : List Nat) :
    ∀ (k : Nat) (a : Nat), a ∈ L →
    ((L.enumFrom k).map (fun p => (p.2, p.1))).lookup a
      = some (k + L.indexOf a) := by
  induction L with
  | nil => intro k a ha; cases ha
  | cons b t ih =>
    intro k a ha
    simp only [List.enumFrom_cons, List.map_cons]
    by_cases hab : a = b
    · subst hab
      rw [List.lookup_cons]
      simp [List.indexOf_cons_self]
    · rw [List.lookup_cons]
      have hbeq : (a == b) = false := by simp [hab]
      simp only [hbeq]
      have hat : a ∈ t := by
        rcases List.mem_cons.mp ha with h1 | h1
        · exact absurd h1 hab
        · exact h1
      rw [ih (k + 1) a hat, List.indexOf_cons_ne _ (Ne.symm hab)]
      congr 1
      omega

theorem contIds_lookup (G : Graph) {u : Nat} (h : G.hasNode u = true) :
    (getContinuousNodeIds G).lookup u = some (G.denseId u) := by
  unfold getContinuousNodeIds
  rw [List.enum_eq_enumFrom]
  have hmem : u ∈ G.nodesList := mem_nodesList_iff.mpr h
  rw [lookup_swap_enumFrom G.nodesList 0 u hmem, Nat.zero_add]
  congr 1
  have hpre : u ∉ (List.range u).filter G.hasNode := by
    intro hmem2
    have hlt := (List.mem_filter.mp hmem2).1
    rw [List.mem_range] at hlt
    omega
  rw [nodesList_decomp G h, indexOf_append_not_mem hpre]
  rfl

theorem contIds_f_alive (G : Graph) {u : Nat} (h : G.hasNode u = true) :
    ((getContinuousNodeIds G).lookup u).getD 0 = G.denseId u := by
  rw [contIds_lookup G h]
  rfl

theorem iv_getD_denseId (G : Graph) {x : Nat} (h : G.hasNode x = true) :
    (G.nodesList ++ [G.bound]).getD (G.denseId x) 0 = x := by
  have hlt : G.denseId x < G.nodesList.length := denseId_lt G h
  rw [List.getD_append _ _ _ _ hlt]
  have hg := nodesList_get?_denseId G h
  rw [List.get?_eq_getElem?] at hg
  rw [List.getD_eq_getElem?_getD, hg]
  rfl

theorem iv_beq_denseId (G : Graph) {x : Nat} (h : G.hasNode x = true) :
    ((G.nodesList ++ [G.bound]).getD (G.denseId x) 0 == x) = true := by
  rw [iv_getD_denseId G h]
  simp

theorem iv_beq_denseId_ne (G : Graph) {u : Nat} (hu : u < G.bound)
    (h : G.hasNode u = false) :
    ((G.nodesList ++ [G.bound]).getD (G.denseId u) 0 == u) = false := by
  have hle : G.denseId u ≤ G.numberOfNodes := denseId_le G u (Nat.le_of_lt hu)
  rcases Nat.lt_or_ge (G.denseId u) G.numberOfNodes with hlt | hge
  · have hlen : G.denseId u < G.nodesList.length := hlt
    rw [List.getD_append _ _ _ _ hlen]
    rw [List.getD_eq_getElem?_getD, List.getElem?_eq_getElem hlen]
    simp only [Option.getD_some]
    have hmem : G.nodesList[G.denseId u] ∈ G.nodesList := List.getElem_mem hlen
    have hx := mem_nodesList hmem
    cases hbe : (G.nodesList[G.denseId u] == u)
    · rfl
    · simp at hbe
      rw [hbe, h] at hx
      exact Bool.noConfusion hx
  · have heq : G.denseId u = G.numberOfNodes := by omega
    have hlen : G.nodesList.length ≤ G.denseId u := by
      rw [heq]
      exact Nat.le_refl _
    rw [List.getD_append_right _ _ _ _ hlen]
    have hz : G.denseId u - G.nodesList.length = 0 := by
      have : G.nodesList.length = G.numberOfNodes := rfl
      omega
    rw [hz]
    simp only [List.getD]
    have hne : G.bound ≠ u := by omega
    simp [hne]

theorem remapFold_edges (f : Nat → Nat) :
    ∀ (l : List Edge) (H : Graph), H.indexed = false →
    ((l.foldl (fun H e => H.addEdge (f e.src) (f e.dst) e.w) H).edges
      = H.edges ++ l.map (fun e => { src := f e.src, dst := f e.dst, w := e.w, id := 0 })) := by
  intro l
  induction l with
  | nil => intro H _; simp
  | cons b t ih =>
    intro H hI
    simp only [List.foldl_cons, List.map_cons]
    rw [ih _ (by simp [hI]), addEdge_edges]
    simp [hI, List.append_assoc]

theorem getRemappedGraph_edges (G : Graph) (n : Nat) (f : Nat → Nat) :
    (getRemappedGraph G n f).edges
      = G.edges.map (fun e => { src := f e.src, dst := f e.dst, w := e.w, id := 0 }) := by
  unfold getRemappedGraph
  rw [remapFold_edges f G.edges _ rfl]
  simp

theorem getRemappedGraph_directed (G : Graph) (n : Nat) (f : Nat → Nat) :
    (getRemappedGraph G n f).directed = G.directed := by
  unfold getRemappedGraph
  exact foldl_preserves (fun H e => H.addEdge (f e.src) (f e.dst) e.w)
    Graph.directed (fun _ _ => rfl) G.edges _

theorem getRemappedGraph_weighted (G : Graph) (n : Nat) (f : Nat → Nat) :
    (getRemappedGraph G n f).weighted = G.weighted := by
  unfold getRemappedGraph
  exact foldl_preserves (fun H e => H.addEdge (f e.src) (f e.dst) e.w)
    Graph.weighted (fun _ _ => rfl) G.edges _

theorem restoreGraph_eq (iv : List Nat) (C0 : Graph) :
    restoreGraph iv C0 = (restoreState C0 iv (iv.getLastD 0) (iv.getLastD 0)).1 := rfl

theorem restoreState_succ (C0 : Graph) (iv : List Nat) (b u : Nat) :
    restoreState C0 iv b (u + 1) = restoreStep C0 iv (restoreState C0 iv b u) u := by
  unfold restoreState
  rw [List.range_succ, List.foldl_append, List.foldl_cons, List.foldl_nil]

theorem restoreStep_match (C0 : Graph) (iv : List Nat) (s : Graph × Nat) (u : Nat)
    (h : (iv.getD s.2 0 == u) = true) :
    restoreStep C0 iv s u
      = ((C0.outNeighbors s.2).foldl (fun H v => H.addEdge u (iv.getD v 0) 1) s.1,
         s.2 + 1) := by
  unfold restoreStep
  rw [h]
  simp

theorem restoreStep_mismatch (C0 : Graph) (iv : List Nat) (s : Graph × Nat) (u : Nat)
    (h : (iv.getD s.2 0 == u) = false) :
    restoreStep C0 iv s u = (s.1.removeNode u, s.2) := by
  unfold restoreStep
  rw [h]
  simp

theorem addEdgeFold_edges (u' : Nat) (iv : List Nat) :
    ∀ (l : List Nat) (H : Graph), H.indexed = false →
    ((l.foldl (fun H v => H.addEdge u' (iv.getD v 0) 1) H).edges
      = H.edges ++ l.map (fun v => { src := u', dst := iv.getD v 0, w := 1, id := 0 })) := by
  intro l
  induction l with
  | nil => intro H _; simp
  | cons b t ih =>
    intro H hI
    simp only [List.foldl_cons, List.map_cons]
    rw [ih _ (by simp [hI]), addEdge_edges]
    simp [hI, List.append_assoc]

theorem addEdgeFold_preserves (u' : Nat) (iv : List Nat) (l : List Nat) (H : Graph) :
    ((l.foldl (fun H v => H.addEdge u' (iv.getD v 0) 1) H).bound = H.bound) ∧
    ((l.foldl (fun H v => H.addEdge u' (iv.getD v 0) 1) H).directed = H.directed) ∧
    ((l.foldl (fun H v => H.addEdge u' (iv.getD v 0) 1) H).weighted = H.weighted) ∧
    ((l.foldl (fun H v => H.addEdge u' (iv.getD v 0) 1) H).indexed = H.indexed) ∧
    (∀ vv, (l.foldl (fun H v => H.addEdge u' (iv.getD v 0) 1) H).alive vv = H.alive vv) :=
  ⟨foldl_preserves (fun H v => H.addEdge u' (iv.getD v 0) 1) Graph.bound
      (fun _ _ => rfl) l H,
   foldl_preserves (fun H v => H.addEdge u' (iv.getD v 0) 1) Graph.directed
      (fun _ _ => rfl) l H,
   foldl_preserves (fun H v => H.addEdge u' (iv.getD v 0) 1) Graph.weighted
      (fun _ _ => rfl) l H,
   foldl_preserves (fun H v => H.addEdge u' (iv.getD v 0) 1) Graph.indexed
      (fun _ _ => rfl) l H,
   fun vv => foldl_preserves (fun H v => H.addEdge u' (iv.getD v 0) 1)
      (fun K : Graph => K.alive vv) (fun _ _ => rfl) l H⟩

theorem restoreFold_char (G C0 : Graph) :
    ∀ u, u ≤ G.bound →
    ((restoreState C0 (G.nodesList ++ [G.bound]) G.bound u).2 = G.denseId u) ∧
    ((restoreState C0 (G.nodesList ++ [G.bound]) G.bound u).1.bound = G.bound) ∧
    ((restoreState C0 (G.nodesList ++ [G.bound]) G.bound u).1.directed = C0.directed) ∧
    ((restoreState C0 (G.nodesList ++ [G.bound]) G.bound u).1.weighted = C0.weighted) ∧
    ((restoreState C0 (G.nodesList ++ [G.bound]) G.bound u).1.indexed = false) ∧
    (∀ v, (restoreState C0 (G.nodesList ++ [G.bound]) G.bound u).1.alive v
        = (decide (v < G.bound) && (decide (u ≤ v) || G.hasNode v))) ∧
    ((restoreState C0 (G.nodesList ++ [G.bound]) G.bound u).1.edges
        = ((List.range u).filter G.hasNode).flatMap (fun a =>
            (C0.outNeighbors (G.denseId a)).map (fun vv =>
              { src := a, dst := (G.nodesList ++ [G.bound]).getD vv 0, w := 1, id := 0 }))) := by
  intro u
  induction u with
  | zero =>
    intro _
    refine ⟨rfl, rfl, rfl, rfl, rfl, ?_, rfl⟩
    intro v
    show decide (v < G.bound) = _
    cases hv : decide (v < G.bound) <;> simp
  | succ k ih =>
    intro hk1
    obtain ⟨hcur, hbound, hdir, hwtd, hidx, halive, hedges⟩ := ih (by omega)
    rw [restoreState_succ]
    have hde : ∀ v, v ≠ k → decide (k ≤ v) = decide (k + 1 ≤ v) := by
      intro v hv
      by_cases h1 : k + 1 ≤ v
      · have h0 : k ≤ v := by omega
        simp [h0, h1]
      · by_cases h0 : k ≤ v
        · omega
        · simp [h0, h1]
    cases hnk : G.hasNode k
    · have hklt : k < G.bound := by omega
      have hne : ((G.nodesList ++ [G.bound]).getD
          (restoreState C0 (G.nodesList ++ [G.bound]) G.bound k).2 0 == k) = false := by
        rw [hcur]
        exact iv_beq_denseId_ne G hklt hnk
      rw [restoreStep_mismatch _ _ _ _ hne]
      refine ⟨?_, ?_, ?_, ?_, ?_, ?_, ?_⟩
      · dsimp only
        rw [hcur, denseId_succ_hole G hnk]
      · dsimp only
        rw [removeNode_bound, hbound]
      · dsimp only
        rw [removeNode_directed, hdir]
      · dsimp only
        rw [removeNode_weighted, hwtd]
      · dsimp only
        rw [removeNode_indexed, hidx]
      · intro v
        dsimp only
        rw [removeNode_alive]
        by_cases hv : v = k
        · subst hv
          rw [if_pos rfl]
          have d1 : decide (v + 1 ≤ v) = false := by simp
          rw [d1, hnk]
          simp
        · rw [if_neg hv, halive v, hde v hv]
      · dsimp only
        rw [removeNode_edges, hedges, List.range_succ, List.filter_append,
          List.flatMap_append, List.filter_cons, hnk]
        simp
    · have heq : ((G.nodesList ++ [G.bound]).getD
          (restoreState C0 (G.nodesList ++ [G.bound]) G.bound k).2 0 == k) = true := by
        rw [hcur]
        exact iv_beq_denseId G hnk
      rw [restoreStep_match _ _ _ _ heq]
      have hpre := addEdgeFold_preserves k (G.nodesList ++ [G.bound])
        (C0.outNeighbors (restoreState C0 (G.nodesList ++ [G.bound]) G.bound k).2)
        (restoreState C0 (G.nodesList ++ [G.bound]) G.bound k).1
      refine ⟨?_, ?_, ?_, ?_, ?_, ?_, ?_⟩
      · dsimp only
        rw [hcur, denseId_succ_alive G hnk]
      · dsimp only
        rw [hpre.1, hbound]
      · dsimp only
        rw [hpre.2.1, hdir]
      · dsimp only
        rw [hpre.2.2.1, hwtd]
      · dsimp only
        rw [hpre.2.2.2.1, hidx]
      · intro v
        dsimp only
        rw [hpre.2.2.2.2 v, halive v]
        by_cases hv : v = k
        · subst hv
          have d0 : decide (v ≤ v) = true := by simp
          have d1 : decide (v + 1 ≤ v) = false := by simp
          rw [d0, d1, hnk]
          simp
        · rw [hde v hv]
      · dsimp only
        rw [addEdgeFold_edges k (G.nodesList ++ [G.bound]) _ _ hidx]
        rw [hedges, hcur, List.range_succ, List.filter_append,
          List.flatMap_append, List.filter_cons, hnk]
        simp

theorem bool_eq_of_iff {a b : Bool} (h : a = true ↔ b = true) : a = b := by
  cases a <;> cases b <;> simp_all

theorem compacted_edges (G : Graph) :
    (getCompactedGraph G (getContinuousNodeIds G)).edges
      = G.edges.map (fun e =>
          { src := ((getContinuousNodeIds G).lookup e.src).getD 0,
            dst := ((getContinuousNodeIds G).lookup e.dst).getD 0,
            w := e.w, id := 0 }) := by
  unfold getCompactedGraph
  rw [getRemappedGraph_edges]

theorem compacted_directed (G : Graph) :
    (getCompactedGraph G (getContinuousNodeIds G)).directed = G.directed := by
  unfold getCompactedGraph
  exact getRemappedGraph_directed G _ _

theorem roundTrip_facts (G : Graph) :
    (roundTrip G).bound = G.bound ∧
    (roundTrip G).directed = G.directed ∧
    (∀ v, (roundTrip G).alive v
        = (decide (v < G.bound) && (decide (G.bound ≤ v) || G.hasNode v))) ∧
    ((roundTrip G).edges = G.nodesList.flatMap (fun a =>
        ((getCompactedGraph G (getContinuousNodeIds G)).outNeighbors (G.denseId a)).map
          (fun vv => { src := a, dst := (G.nodesList ++ [G.bound]).getD vv 0,
                       w := 1, id := 0 }))) := by
  have hiv : invertContinuousNodeIds (getContinuousNodeIds G) G
      = G.nodesList ++ [G.bound] := invert_eq G
  have hR : roundTrip G = (restoreState (getCompactedGraph G (getContinuousNodeIds G))
      (G.nodesList ++ [G.bound]) G.bound G.bound).1 := by
    unfold roundTrip
    rw [restoreGraph_eq, hiv, List.getLastD_concat]
  obtain ⟨_, hbound, hdir, _, _, halive, hedges⟩ :=
    restoreFold_char G (getCompactedGraph G (getContinuousNodeIds G)) G.bound
      (Nat.le_refl _)
  refine ⟨?_, ?_, ?_, ?_⟩
  · rw [hR, hbound]
  · rw [hR, hdir, compacted_directed]
  · intro v
    rw [hR, halive v]
  · rw [hR, hedges]
    rfl

theorem roundTrip_mem_of_edge (G : Graph) (hw : G.wf = true) {e : Edge}
    (he : e ∈ G.edges) :
    ({ src := e.src, dst := e.dst, w := 1, id := 0 } : Edge) ∈ (roundTrip G).edges := by
  obtain ⟨hsrc, hdst⟩ := wf_endpoints hw e he
  rw [(roundTrip_facts G).2.2.2, List.mem_flatMap]
  refine ⟨e.src, mem_nodesList_iff.mpr hsrc, ?_⟩
  rw [List.mem_map]
  refine ⟨G.denseId e.dst, ?_, ?_⟩
  · unfold Graph.outNeighbors
    rw [compacted_directed]
    cases hd : G.directed
    · simp only [Bool.false_eq_true, if_false]
      rw [List.mem_filterMap]
      refine ⟨{ src := ((getContinuousNodeIds G).lookup e.src).getD 0,
                dst := ((getContinuousNodeIds G).lookup e.dst).getD 0,
                w := e.w, id := 0 }, ?_, ?_⟩
      · rw [compacted_edges G]
        exact List.mem_map.mpr ⟨e, he, rfl⟩
      · dsimp only
        rw [contIds_f_alive G hsrc, contIds_f_alive G hdst]
        have hb : (G.denseId e.src == G.denseId e.src) = true := by simp
        rw [hb]
        simp
    · simp only [if_true]
      unfold Graph.outEdges
      rw [List.mem_map]
      refine ⟨{ src := ((getContinuousNodeIds G).lookup e.src).getD 0,
                dst := ((getContinuousNodeIds G).lookup e.dst).getD 0,
                w := e.w, id := 0 }, ?_, ?_⟩
      · rw [List.mem_filter]
        constructor
        · rw [compacted_edges G]
          exact List.mem_map.mpr ⟨e, he, rfl⟩
        · dsimp only
          rw [contIds_f_alive G hsrc]
          simp
      · dsimp only [Edge.dst]
        rw [contIds_f_alive G hdst]
  · rw [iv_getD_denseId G hdst]

theorem roundTrip_mem_directed (G : Graph) (hw : G.wf = true)
    (hd : G.directed = true) {r : Edge} (hr : r ∈ (roundTrip G).edges) :
    ∃ e ∈ G.edges, r = { src := e.src, dst := e.dst, w := 1, id := 0 } := by
  rw [(roundTrip_facts G).2.2.2, List.mem_flatMap] at hr
  obtain ⟨a, haL, hr2⟩ := hr
  have ha := mem_nodesList haL
  rw [List.mem_map] at hr2
  obtain ⟨vv, hvv, hrec⟩ := hr2
  unfold Graph.outNeighbors at hvv
  rw [compacted_directed, hd] at hvv
  simp only [if_true] at hvv
  unfold Graph.outEdges at hvv
  rw [List.mem_map] at hvv
  obtain ⟨ec, hec, hvdst⟩ := hvv
  rw [List.mem_filter] at hec
  obtain ⟨hecmem, hecsrc⟩ := hec
  rw [compacted_edges G, List.mem_map] at hecmem
  obtain ⟨e, heG, hecdef⟩ := hecmem
  obtain ⟨hes, hed⟩ := wf_endpoints hw e heG
  subst hecdef
  dsimp only at hecsrc hvdst
  rw [contIds_f_alive G hes] at hecsrc
  simp only [beq_iff_eq] at hecsrc
  have hea : e.src = a := denseId_inj G hes ha hecsrc
  rw [contIds_f_alive G hed] at hvdst
  refine ⟨e, heG, ?_⟩
  rw [← hrec, ← hvdst, iv_getD_denseId G hed, hea]

theorem roundTrip_mem_undirected (G : Graph) (hw : G.wf = true)
    (hd : G.directed = false) {r : Edge} (hr : r ∈ (roundTrip G).edges) :
    ∃ e ∈ G.edges, (r = { src := e.src, dst := e.dst, w := 1, id := 0 } ∨
      r = { src := e.dst, dst := e.src, w := 1, id := 0 }) := by
  rw [(roundTrip_facts G).2.2.2, List.mem_flatMap] at hr
  obtain ⟨a, haL, hr2⟩ := hr
  have ha := mem_nodesList haL
  rw [List.mem_map] at hr2
  obtain ⟨vv, hvv, hrec⟩ := hr2
  unfold Graph.outNeighbors at hvv
  rw [compacted_directed, hd] at hvv
  simp only [Bool.false_eq_true, if_false] at hvv
  rw [List.mem_filterMap] at hvv
  obtain ⟨ec, hecmem, hg⟩ := hvv
  rw [compacted_edges G, List.mem_map] at hecmem
  obtain ⟨e, heG, hecdef⟩ := hecmem
  obtain ⟨hes, hed⟩ := wf_endpoints hw e heG
  subst hecdef
  dsimp only at hg
  rw [contIds_f_alive G hes, contIds_f_alive G hed] at hg
  refine ⟨e, heG, ?_⟩
  cases hb1 : (G.denseId e.src == G.denseId a)
  · rw [hb1] at hg
    simp only [Bool.false_eq_true, if_false] at hg
    cases hb2 : (G.denseId e.dst == G.denseId a)
    · rw [hb2] at hg
      simp at hg
    · rw [hb2] at hg
      simp only [if_true, Option.some_inj] at hg
      simp only [beq_iff_eq] at hb2
      have hea : e.dst = a := denseId_inj G hed ha hb2
      right
      rw [← hrec, ← hg, iv_getD_denseId G hes, hea]
  · rw [hb1] at hg
    simp only [if_true, Option.some_inj] at hg
    simp only [beq_iff_eq] at hb1
    have hea : e.src = a := denseId_inj G hes ha hb1
    left
    rw [← hrec, ← hg, iv_getD_denseId G hed, hea]

/-- C1: the compact-invert-restore round trip rebuilds exactly the
original node-existence pattern (same existing ids, same holes, same
upper node id bound) and the same edge endpoints, while weights are not
restored: every rebuilt edge record carries the unit default weight. -/
theorem compact_restore_roundtrip (G : Graph) (hw : G.wf = true) :
    (roundTrip G).bound = G.bound ∧
    (∀ v, (roundTrip G).hasNode v = G.hasNode v) ∧
    (∀ u v, (roundTrip G).hasEdge u v = G.hasEdge u v) ∧
    (∀ r ∈ (roundTrip G).edges, r.w = 1) := by
  obtain ⟨hbound, hdir, halive, hedges⟩ := roundTrip_facts G
  refine ⟨hbound, ?_, ?_, ?_⟩
  · intro v
    rw [hasNode_eq, hbound, halive v, hasNode_eq G v]
    by_cases hv : v < G.bound
    · have d1 : decide (v < G.bound) = true := by simp [hv]
      have d2 : decide (G.bound ≤ v) = false := by simp; omega
      rw [d1, d2]
      simp
    · have d1 : decide (v < G.bound) = false := by simp [hv]
      rw [d1]
      simp
  · intro u v
    apply bool_eq_of_iff
    unfold Graph.hasEdge
    rw [hdir]
    cases hd : G.directed
    · simp only [Bool.false_eq_true, if_false]
      rw [List.any_eq_true, List.any_eq_true]
      constructor
      · rintro ⟨r, hrR, hp⟩
        obtain ⟨e, heG, hre⟩ := roundTrip_mem_undirected G hw hd hrR
        refine ⟨e, heG, ?_⟩
        rcases hre with rfl | rfl
        · simpa using hp
        · simp only at hp ⊢
          simp at hp ⊢
          tauto
      · rintro ⟨e, heG, hp⟩
        exact ⟨_, roundTrip_mem_of_edge G hw heG, by simpa using hp⟩
    · simp only [if_true]
      rw [List.any_eq_true, List.any_eq_true]
      constructor
      · rintro ⟨r, hrR, hp⟩
        obtain ⟨e, heG, rfl⟩ := roundTrip_mem_directed G hw hd hrR
        exact ⟨e, heG, by simpa using hp⟩
      · rintro ⟨e, heG, hp⟩
        exact ⟨_, roundTrip_mem_of_edge G hw heG, by simpa using hp⟩
  · intro r hr
    rw [hedges, List.mem_flatMap] at hr
    obtain ⟨a, _, hr2⟩ := hr
    rw [List.mem_map] at hr2
    obtain ⟨vv, _, hrec⟩ := hr2
    rw [← hrec]

/-- Witness for C1 at a concrete directed graph with a hole. -/
theorem compact_restore_roundtrip_witness :
    (roundTrip exD).bound = exD.bound ∧
    (∀ v, (roundTrip exD).hasNode v = exD.hasNode v) ∧
    (∀ u v, (roundTrip exD).hasEdge u v = exD.hasEdge u v) ∧
    (∀ r ∈ (roundTrip exD).edges, r.w = 1) :=
  compact_restore_roundtrip exD (by decide)

end GraphTools

end NetworKit
